import Mathlib

/-!
# Verification of the MTR timetable engine (`mtr_timetable_github.py`)

Shallow embedding of the timetable derivation and query engine.  Python
dictionaries are modelled as association lists (`aget`/`aset` mirror `d[k]`
reads and writes, first occurrence wins, insertion order preserved); Python
integers are `Int`; `x % m` and `x // m` for a positive modulus `m` are
`Int.emod` / `Int.ediv` (both agree with Python's floor conventions for a
positive divisor); `random.choice` takes an externally supplied index stream;
Python exceptions are an explicit error type.  The OpenCC script converters
are data-table driven and are passed as abstract function parameters; on
ASCII input every converter acts as the identity, which is what the concrete
test inputs below use.
-/

namespace MTR

/-- The Python exceptions the embedded code can raise. -/
inductive PyErr where
  | indexError
  | keyError
  | valueError
  | typeError
  | nameError
deriving DecidableEq, Repr

/-- Equality on `Except` results is decidable (used to evaluate the model on
concrete inputs). -/
instance {ε α : Type} [DecidableEq ε] [DecidableEq α] : DecidableEq (Except ε α) := fun a b =>
  match a, b with
  | .error e, .error f =>
    decidable_of_iff (e = f) ⟨fun h => by rw [h], fun h => by injection h⟩
  | .error _, .ok _ => isFalse (fun h => Except.noConfusion h)
  | .ok _, .error _ => isFalse (fun h => Except.noConfusion h)
  | .ok x, .ok y =>
    decidable_of_iff (x = y) ⟨fun h => by rw [h], fun h => by injection h⟩

/-- Association-list read, first match wins: Python `d.get(k)` / `d[k]`. -/
def aget {α β : Type} [DecidableEq α] : List (α × β) → α → Option β
  | [], _ => none
  | (k', v) :: rest, k => if k' = k then some v else aget rest k

/-- Association-list write: Python `d[k] = v` (update in place, else append;
dictionaries preserve insertion order). -/
def aset {α β : Type} [DecidableEq α] : List (α × β) → α → β → List (α × β)
  | [], k, v => [(k, v)]
  | (k', v') :: rest, k, v =>
    if k' = k then (k, v) :: rest else (k', v') :: aset rest k v

/-- Python `min(l)` (raises `ValueError` on an empty list, hence `Option`). -/
def listMin : List Int → Option Int
  | [] => none
  | x :: xs => some (xs.foldl min x)

/-- Python `max(l)`. -/
def listMax : List Int → Option Int
  | [] => none
  | x :: xs => some (xs.foldl max x)

/-- Python `random.choice(l)` fed with an external index `r`
(`IndexError` on an empty sequence). -/
def pyChoice {α : Type} (l : List α) (r : Nat) : Except PyErr α :=
  match l with
  | [] => .error .indexError
  | a :: rest => .ok ((a :: rest).getD (r % (a :: rest).length) a)

/-- Python `round(ms / 1000)`: round to nearest, ties to even
(`ms / 1000` is exact at the tie points used by the data, which are
multiples of 500). -/
def pyRound1000 (ms : Int) : Int :=
  let q := Int.ediv ms 1000
  let r := Int.emod ms 1000
  if 500 < r then q + 1
  else if r < 500 then q
  else if Int.emod q 2 = 0 then q else q + 1

/-- Python `l[:k]` for an `Int` bound (negative bounds count from the end). -/
def pyTake {α : Type} (l : List α) (k : Int) : List α :=
  if 0 ≤ k then l.take k.toNat else l.take ((l.length : Int) + k).toNat

/-- Python `str.rjust(2, '0')`. -/
def rjust2 (s : String) : String :=
  if s.length ≥ 2 then s else String.mk (List.replicate (2 - s.length) '0') ++ s

/-- `convert_time` (source lines 240-281): seconds-of-day to `HH:MM[:SS]`,
with the carry corrections of the `use_second=False` branch. -/
def convert_time (t : Int) (use_second : Bool) : String :=
  if use_second then
    let hour := rjust2 (toString (Int.ediv t (60 * 60)))
    let minute := rjust2 (toString (Int.ediv (Int.emod t 3600) 60))
    let second := rjust2 (toString (Int.emod t 60))
    String.intercalate ":" [hour, minute, second]
  else
    let hour := Int.ediv t (60 * 60)
    let minute := Int.ediv (Int.emod t 3600) 60
    let second := Int.emod t 60
    let minute := if second ≥ 60 then minute + 1 else minute
    let p := if minute ≥ 60 then (minute - 60, hour + 1) else (minute, hour)
    let hour := if p.2 = 24 then 0 else p.2
    String.intercalate ":" [rjust2 (toString hour), rjust2 (toString p.1)]

/-! ## Script conversion and name resolution

The four process-wide OpenCC converters (`s2t`, `t2jp`, `t2s`, `jp2t`) are
dictionary-driven pure string functions; they are taken as parameters.  Every
converter is the identity on ASCII strings (the tables only map CJK
codepoints), which is what the concrete examples below rely on, via `idCC`. -/

structure CC where
  s2t : String → String
  t2jp : String → String
  t2s : String → String
  jp2t : String → String

def idCC : CC := ⟨id, id, id, id⟩

/-- Python `str.isascii()`. -/
def pyIsAscii (s : String) : Bool := s.data.all (fun c => c.toNat < 128)

/-! ### Kernel-computable string utilities

The Lean core string functions (`splitOn`, `replace`, `mergeSort`, ...) are
compiled by well-founded recursion and do not reduce inside the kernel, so the
embedding uses its own structural versions, each mirroring the corresponding
Python operation.  The `fuel` arguments are initialised above the input
length, so the exhaustion branches are unreachable. -/

/-- `s.split(pat)` for a non-empty `pat`, on character lists. -/
def splitF (pat : List Char) : Nat → List Char → List (List Char)
  | 0, s => [s]
  | _ + 1, [] => [[]]
  | fuel + 1, c :: rest =>
    if pat ≠ [] ∧ (c :: rest).take pat.length = pat then
      [] :: splitF pat fuel ((c :: rest).drop pat.length)
    else
      match splitF pat fuel rest with
      | [] => [[c]]
      | g :: gs => (c :: g) :: gs

/-- Python `s.split(pat)` (with the non-empty separators used by the source). -/
def pySplit (pat s : String) : List String :=
  (splitF pat.data (s.data.length + 1) s.data).map String.mk

/-- `s.replace(pat, rep)` for a non-empty `pat`, on character lists. -/
def replaceF (pat rep : List Char) : Nat → List Char → List Char
  | 0, s => s
  | _ + 1, [] => []
  | fuel + 1, c :: rest =>
    if pat ≠ [] ∧ (c :: rest).take pat.length = pat then
      rep ++ replaceF pat rep fuel ((c :: rest).drop pat.length)
    else c :: replaceF pat rep fuel rest

/-- Python `s.replace(pat, rep)`. -/
def pyReplace (s pat rep : String) : String :=
  String.mk (replaceF pat.data rep.data (s.data.length + 1) s.data)

/-- Python `str.lower()` (the strings involved are ASCII or CJK; CJK
characters have no case). -/
def pyLower (s : String) : String := String.mk (s.data.map Char.toLower)

def pyWS (c : Char) : Bool :=
  c = ' ' ∨ c = '\t' ∨ c = '\n' ∨ c = '\x0d' ∨ c = '\x0b' ∨ c = '\x0c'

/-- Python `str.strip()`. -/
def pyStrip (s : String) : String :=
  String.mk (((s.data.dropWhile pyWS).reverse.dropWhile pyWS).reverse)

/-- Python `int(s)` for the plain decimal forms used here (optional
whitespace and sign, at least one digit); other strings raise `ValueError`,
i.e. `none`. -/
def pyToInt (s : String) : Option Int :=
  let t := (s.data.dropWhile pyWS).reverse.dropWhile pyWS |>.reverse
  let core := match t with
    | '-' :: ds => some (true, ds)
    | '+' :: ds => some (false, ds)
    | ds => some (false, ds)
  match core with
  | some (neg, ds) =>
    if ds ≠ [] ∧ ds.all (fun c => '0' ≤ c ∧ c ≤ '9') then
      let n : Nat := ds.foldl (fun acc c => 10 * acc + (c.toNat - '0'.toNat)) 0
      some (if neg then -(n : Int) else (n : Int))
    else none
  | none => none

/-- Stable insertion step. -/
def insertB {α : Type} (le : α → α → Bool) (x : α) : List α → List α
  | [] => [x]
  | y :: ys => if le x y then x :: y :: ys else y :: insertB le x ys

/-- Python `list.sort()` / `sorted()`: a stable sort by a total preorder.
Stability plus sortedness determine the output uniquely, so stable insertion
sort computes exactly Python's (Timsort) result. -/
def pySort {α : Type} (le : α → α → Bool) : List α → List α
  | [] => []
  | x :: xs => insertB le x (pySort le xs)

/-- Python's lexicographic `<` on strings, structurally over the code points. -/
def pyStrLtL : List Char → List Char → Bool
  | [], [] => false
  | [], _ :: _ => true
  | _ :: _, [] => false
  | a :: as, b :: bs =>
    if a < b then true else if b < a then false else pyStrLtL as bs

/-- Python's `<=` on strings (`s <= t` iff not `t < s`). -/
def pyStrLe (s t : String) : Bool := ! pyStrLtL t.data s.data

/-- Substring test, Python `needle in hay`. -/
def isSubstr (needle hay : String) : Bool :=
  (List.range (hay.data.length + 1)).any
    (fun i => (hay.data.drop i).take needle.data.length = needle.data)

/-! ## Data model

`Stop` is one entry of `route['stations']` (station id, dwell time in ms,
platform coordinate); `Route` is `data['routes'][rid]`; `Station` is
`data['stations'][sid]` (`coord = none` models a station record without
`'x'`/`'z'` keys); `MData` is the `data` dictionary. -/

structure Stop where
  sid : String
  dwellTime : Int
  x : Int
  y : Int
  z : Int
deriving DecidableEq, Repr

structure Route where
  name : String
  number : String
  stations : List Stop
  durations : List Int
  hidden : Bool
  circularState : String
  rtype : String
deriving DecidableEq, Repr

structure Station where
  name : String
  station : String
  coord : Option (Int × Int × Int)
deriving DecidableEq, Repr

structure MData where
  stations : List (String × Station)
  routes : List (String × Route)
  station_routes : List (String × List String)
deriving Repr

def emptyStation : Station := ⟨"", "", none⟩

def emptyRoute : Route := ⟨"", "", [], [], false, "", ""⟩

/-! ## `gen_departure_data` (source lines 1403-1546)

The builder.  File I/O (loading `DEP_PATH`, pickling the results) belongs to
the excluded loader; the raw departure dictionary is passed in as `dep_data`.
The builder state carries the four dictionaries the Python function mutates. -/

structure BState where
  station_route_dep : List (String × List (String × List (String × Int × Nat × Nat)))
  all_route_dep : List (String × List (Nat × String × Nat × Int))
  trains : List (String × List (List Int))
  station_train_id : List (String × Nat)
deriving Repr

/-- Lexicographic `≤` on the `(route_id, new_dep, (i, train_id))` tuples,
Python's default tuple ordering used by `list.sort()`. -/
def srdLE (a b : String × Int × Nat × Nat) : Bool :=
  if a.1 ≠ b.1 then decide (a.1 < b.1)
  else if a.2.1 ≠ b.2.1 then decide (a.2.1 < b.2.1)
  else if a.2.2.1 ≠ b.2.2.1 then decide (a.2.2.1 < b.2.2.1)
  else decide (a.2.2.2 ≤ b.2.2.2)

/-- Fold with the element index, Python's `for i, x in enumerate(l)`. -/
def foldIdx {σ β : Type} (f : Nat → σ → β → σ) : Nat → σ → List β → σ
  | _, st, [] => st
  | i, st, b :: rest => foldIdx f (i + 1) (f i st b) rest

/-- One iteration of the inner `for i, x in enumerate(departures_new)` loop
(source lines 1515-1524): record the departure under the next free
per-station train id and bump the counter. -/
def procDeparture (route_id eng_name st1 : String) (dep_time : Int)
    (st : BState) (ix : Nat) (x : Int) : BState :=
  let new_dep := Int.emod (dep_time + x + 8 * 60 * 60) 86400
  let train_id := (aget st.station_train_id st1).getD 1
  let inner := (aget st.station_route_dep st1).getD []
  let lst := (aget inner eng_name).getD []
  let inner := aset inner eng_name (lst ++ [(route_id, new_dep, ix, train_id)])
  let ard_inner := (aget st.all_route_dep st1).getD []
  { st with
    station_route_dep := aset st.station_route_dep st1 inner,
    all_route_dep := aset st.all_route_dep st1
      (aset ard_inner train_id (route_id, ix, new_dep)),
    station_train_id := aset st.station_train_id st1 (train_id + 1) }

/-- Body of one iteration of `for i in range(len(station_ids) - 1, 0, -1)`
(source lines 1481-1527), acting on the running `(dep, timetable, state)`. -/
def procPair (route_id eng_name : String) (station_ids real_ids : List String)
    (durations dwells : List Int) (departures_new : List Int)
    (i : Nat) (acc : Int × List Int × BState) : Int × List Int × BState :=
  let dep0 := acc.1
  let timetable := acc.2.1
  let st := acc.2.2
  let station1 := station_ids.getD (i - 1) ""
  let station2 := station_ids.getD i ""
  let st1 := real_ids.getD (i - 1) ""
  let dur := pyRound1000 (durations.getD (i - 1) 0)
  let arr_time := dep0
  let dep_time := dep0 - dur
  let dwell := pyRound1000 (dwells.getD (i - 1) 0)
  let dep1 := dep0 - dur - dwell
  if station1 = station2 then (dep1, timetable, st)
  else
    let timetable := dep_time :: arr_time :: timetable
    let st := if (aget st.station_train_id st1).isSome then st
      else { st with station_train_id := aset st.station_train_id st1 1 }
    let st := if (aget st.station_route_dep st1).isSome then st
      else { st with station_route_dep := aset st.station_route_dep st1 [] }
    let st :=
      let inner := (aget st.station_route_dep st1).getD []
      if (aget inner eng_name).isSome then st
      else { st with
             station_route_dep := aset st.station_route_dep st1 (aset inner eng_name []) }
    let st := if (aget st.all_route_dep st1).isSome then st
      else { st with all_route_dep := aset st.all_route_dep st1 [] }
    let st := foldIdx
      (fun ix st x => procDeparture route_id eng_name st1 dep_time st ix x)
      0 st departures_new
    let st :=
      let inner := (aget st.station_route_dep st1).getD []
      let lst := (aget inner eng_name).getD []
      { st with
        station_route_dep := aset st.station_route_dep st1
          (aset inner eng_name (pySort srdLE lst)) }
    (dep1, timetable, st)

/-- The reversed index loop `for i in range(len(station_ids) - 1, 0, -1)`:
`pairLoop ... i` runs the body at indices `i, i-1, ..., 1`. -/
def pairLoop (route_id eng_name : String) (station_ids real_ids : List String)
    (durations dwells : List Int) (departures_new : List Int) :
    Nat → Int × List Int × BState → Int × List Int × BState
  | 0, acc => acc
  | i + 1, acc =>
    pairLoop route_id eng_name station_ids real_ids durations dwells departures_new
      i (procPair route_id eng_name station_ids real_ids durations dwells
          departures_new (i + 1) acc)

/-- One route of the builder's main loop (source lines 1427-1535). -/
def procRoute (data : MData) (IGNORED_LINES : List String) (st : BState)
    (route_id : String) (departures : List Int) : BState :=
  match aget data.routes route_id with
  | none => st
  | some route =>
    let n := route.name
    if n ∈ IGNORED_LINES then st
    else
      let pieces := pySplit "|" n
      let eng_name :=
        match pieces.get? 1 with
        | some e => if e = "" then pieces.getD 0 "" else e
        | none => pieces.getD 0 ""
      if route.durations = [] then st
      else
        let st := if (aget st.trains route_id).isSome then st
          else { st with trains := aset st.trains route_id [] }
        let station_ids := route.stations.map
          (fun x => ((aget data.stations x.sid).getD emptyStation).station)
        let durations :=
          if (station_ids.length : Int) - 1 < (route.durations.length : Int)
          then pyTake route.durations ((station_ids.length : Int) - 1)
          else route.durations
        if (station_ids.length : Int) - 1 > (durations.length : Int) then st
        else
          let departures_new := departures.map (fun x =>
            if x < 0 then x + 86400 else if x ≥ 86400 then x - 86400 else x)
          let real_ids := route.stations.map (·.sid)
          let dwells := route.stations.map (·.dwellTime)
          let dep : Int :=
            if 0 < dwells.length then -(pyRound1000 (dwells.getLastD 0)) else 0
          let r := pairLoop route_id eng_name station_ids real_ids durations dwells
            departures_new (station_ids.length - 1) (dep, [], st)
          let timetable := r.2.1
          let st := r.2.2
          if timetable = [] then st
          else
            let newTrains := departures_new.map
              (fun x => timetable.map (fun y => y + x + 8 * 60 * 60))
            { st with
              trains := aset st.trains route_id
                ((aget st.trains route_id).getD [] ++ newTrains) }

/-- `gen_departure_data(data, ..., dep_data, IGNORED_LINES)`: fold the route
loop over the raw departure dictionary, starting from empty indices. -/
def gen_departure_data (data : MData) (dep_data : List (String × List Int))
    (IGNORED_LINES : List String) : BState :=
  dep_data.foldl (fun st p => procRoute data IGNORED_LINES st p.1 p.2) ⟨[], [], [], []⟩

/-! ## `difflib.SequenceMatcher` (stdlib, used by `get_close_matches`)

Ratios are modelled in `ℚ` (CPython computes `2.0 * matches / length` in
floating point; the comparisons against the cutoff `0.2` and between ratios
are modelled exactly).  The model has no junk handling: `SequenceMatcher()`
is created without an `isjunk` argument, and `autojunk` only fires when the
second sequence has at least 200 elements, hence the length hypotheses on the
query words in the theorems below. -/

/-- Length of the common prefix of two character lists. -/
def commonPrefixLen : List Char → List Char → Nat
  | a :: as, b :: bs => if a = b then commonPrefixLen as bs + 1 else 0
  | _, _ => 0

/-- `SequenceMatcher.find_longest_match` over whole sequences: the longest
`(i, j, k)` with `a[i:i+k] == b[j:j+k]`, earliest `i`, then earliest `j`
(the scan below only replaces the best block with a strictly longer one). -/
def flm (a b : List Char) : Nat × Nat × Nat :=
  (List.range a.length).foldl (fun best i =>
    (List.range b.length).foldl (fun best j =>
      let k := commonPrefixLen (a.drop i) (b.drop j)
      if best.2.2 < k then (i, j, k) else best) best) (0, 0, 0)

/-- Total size of `get_matching_blocks` via the divide-and-conquer recursion
around the longest match.  The recursion depth is below `a.length + b.length + 1`
(each level strictly shrinks the combined length), so the fuel in
`blocksTotal` never runs out. -/
def blocksTotalF : Nat → List Char → List Char → Nat
  | 0, _, _ => 0
  | fuel + 1, a, b =>
    let t := flm a b
    if t.2.2 = 0 then 0
    else
      blocksTotalF fuel (a.take t.1) (b.take t.2.1) + t.2.2 +
        blocksTotalF fuel (a.drop (t.1 + t.2.2)) (b.drop (t.2.1 + t.2.2))

def blocksTotal (a b : List Char) : Nat := blocksTotalF (a.length + b.length + 1) a b

/-- `SequenceMatcher.ratio()`: `2.0 * M / T` (`1.0` when both empty). -/
def pyRatio (a b : List Char) : ℚ :=
  if a.length + b.length = 0 then 1
  else (2 * blocksTotal a b : ℚ) / ((a.length : ℚ) + (b.length : ℚ))

/-- The `matches` count of `SequenceMatcher.quick_ratio()`: walk `a`, spending
the multiplicity budget of each character in `b` (the `avail`/`fullbcount`
bookkeeping of the source). -/
def quickMatches (a b : List Char) : Nat :=
  (a.foldl (fun (p : Nat × List (Char × Int)) elt =>
    let numb : Int :=
      match aget p.2 elt with
      | some n => n
      | none => (b.count elt : Int)
    (if 0 < numb then p.1 + 1 else p.1, aset p.2 elt (numb - 1))) (0, [])).1

/-- One step of the `quick_ratio` walk (named for the proofs;
`quickMatches a b` is definitionally `(a.foldl (qmStep b) (0, [])).1`). -/
def qmStep (b : List Char) (p : Nat × List (Char × Int)) (elt : Char) :
    Nat × List (Char × Int) :=
  let numb : Int :=
    match aget p.2 elt with
    | some n => n
    | none => (b.count elt : Int)
  (if 0 < numb then p.1 + 1 else p.1, aset p.2 elt (numb - 1))

/-- `SequenceMatcher.quick_ratio()`. -/
def quick_ratio (a b : List Char) : ℚ :=
  if a.length + b.length = 0 then 1
  else (2 * quickMatches a b : ℚ) / ((a.length : ℚ) + (b.length : ℚ))

/-- `SequenceMatcher.real_quick_ratio()`. -/
def real_quick_ratio (a b : List Char) : ℚ :=
  if a.length + b.length = 0 then 1
  else (2 * min a.length b.length : ℚ) / ((a.length : ℚ) + (b.length : ℚ))

/-! ## `get_close_matches` and the name resolvers (source lines 60-237) -/

/-- Strict lexicographic order on the `(ratio, id)` pairs of
`get_close_matches`.  Python's `max` compares the second components only on
equal ratios; there `None` never meets a string (the seeded `(-1, None)`
ratio is below every candidate's), so ordering `none` below `some` is
unobservable. -/
def pairLt (p q : ℚ × Option String) : Bool :=
  if p.1 = q.1 then
    match p.2, q.2 with
    | none, some _ => true
    | some a, some b => decide (a < b)
    | _, _ => false
  else decide (p.1 < q.1)

/-- Python `max(l)` for the ratio pairs (first maximal element wins). -/
def pymaxQ : List (ℚ × Option String) → ℚ × Option String
  | [] => (-1, none)
  | x :: xs => xs.foldl (fun m y => if pairLt m y then y else m) x

/-- `get_close_matches(words, possibilities, cutoff)` (source lines 127-161):
pairs are `(full display name, station id)`; the id of the best ratio above
the cutoff is returned, `none` when no pair qualifies. -/
def get_close_matches (words : List String) (possibilities : List (String × String))
    (cutoff : ℚ) : Option String :=
  let result := words.foldl (fun res word =>
    possibilities.foldl (fun res p =>
      if cutoff ≤ real_quick_ratio p.1.data word.data ∧
          cutoff ≤ quick_ratio p.1.data word.data then
        let ratio := pyRatio p.1.data word.data
        if cutoff ≤ ratio then res ++ [(ratio, some p.2)] else res
      else res) res) [((-1 : ℚ), (none : Option String))]
  (pymaxQ result).2

/-- The inner candidate step of `get_close_matches` (named for the proofs). -/
def gcmInner (cutoff : ℚ) (word : String) (res : List (ℚ × Option String))
    (p : String × String) : List (ℚ × Option String) :=
  if cutoff ≤ real_quick_ratio p.1.data word.data ∧
      cutoff ≤ quick_ratio p.1.data word.data then
    let ratio := pyRatio p.1.data word.data
    if cutoff ≤ ratio then res ++ [(ratio, some p.2)] else res
  else res

/-- `station_name_to_id` (source lines 164-212).  One pass over the stations
collects `(all_names, output, has_station)`; the exact phase matches the
three script forms of the query against the four name variants (the last
matching station wins); stations enter the fuzzy pool only when their record
carries both `'x'` and `'z'` coordinates. -/
def station_name_to_id (cc : CC) (data : MData) (sta0 : String)
    (fuzzy_compare : Bool) : Option String :=
  let sta := pyLower sta0
  let tra1 := cc.s2t sta
  let sta_try := [sta, tra1, cc.t2jp tra1]
  let r := data.stations.foldl
    (fun (acc : List (String × String) × Option String × Bool) p =>
      let s_1 := p.2.name
      let all_names := if p.2.coord.isSome then acc.1 ++ [(s_1, p.1)] else acc.1
      let s_split := pySplit "|" s_1
      let s_2_2 := s_split.getLastD ""
      let s_2 := (pySplit "/" s_2_2).getLastD ""
      let s_3 := s_split.getD 0 ""
      let hit := sta_try.any (fun st =>
        st = pyLower s_1 ∨ st = pyLower s_2 ∨ st = pyLower s_2_2 ∨ st = pyLower s_3)
      if hit then (all_names, some p.1, true) else (all_names, acc.2.1, acc.2.2))
    ([], none, false)
  if r.2.2 = false ∧ fuzzy_compare = true then get_close_matches sta_try r.1 (1 / 5)
  else r.2.1

/-- The three script forms `[sta, tra1, tt_opencc2.convert(tra1)]` of the
query (named for the proofs). -/
def snTry (cc : CC) (sta0 : String) : List String :=
  [pyLower sta0, cc.s2t (pyLower sta0), cc.t2jp (cc.s2t (pyLower sta0))]

/-- The exact-match test of one station against the three query forms
(named for the proofs). -/
def snHit (t : List String) (p : String × Station) : Bool :=
  let s_1 := p.2.name
  let s_split := pySplit "|" s_1
  let s_2_2 := s_split.getLastD ""
  let s_2 := (pySplit "/" s_2_2).getLastD ""
  let s_3 := s_split.getD 0 ""
  t.any (fun st =>
    st = pyLower s_1 ∨ st = pyLower s_2 ∨ st = pyLower s_2_2 ∨ st = pyLower s_3)

/-- One step of the station scan of `station_name_to_id` (named for the
proofs; the scan fold is definitionally `foldl (snStep sta_try)`). -/
def snStep (t : List String) (acc : List (String × String) × Option String × Bool)
    (p : String × Station) : List (String × String) × Option String × Bool :=
  let all_names := if p.2.coord.isSome then acc.1 ++ [(p.2.name, p.1)] else acc.1
  if snHit t p then (all_names, some p.1, true) else (all_names, acc.2.1, acc.2.2)

/-- Python `hex(i)[2:]` (for a negative argument the slice eats the sign and
the `0`, leaving `x...`, exactly as in CPython). -/
def pyHexBody (i : Int) : String :=
  if i < 0 then "x" ++ String.mk (Nat.toDigits 16 (-i).toNat)
  else String.mk (Nat.toDigits 16 i.toNat)

/-- `station_short_id_to_id` (source lines 215-237): first station whose short
code equals the hex form. -/
def station_short_id_to_id (data : MData) (short_id : Int) : Option String :=
  (data.stations.find? (fun p => pyHexBody short_id = p.2.station)).map Prod.fst

/-- The shared `try: int(station) ... except ValueError:` resolution prologue
of `get_train` / `get_text_timetable` / `get_sta_directions`. -/
def resolveStation (cc : CC) (data : MData) (station : String) : Option String :=
  match pyToInt station with
  | some sid => station_short_id_to_id data sid
  | none => station_name_to_id cc data station true

/-- One `data_v3[0]['routes']` entry. -/
structure RouteV3 where
  rid : String
  name : String
  number : String
deriving DecidableEq, Repr

/-- `route_name_to_id` (source lines 60-124). -/
def route_name_to_id (cc : CC) (routesV3 : List RouteV3) (route_name0 : String) :
    List String :=
  match routesV3.find? (fun r => route_name0 = r.rid) with
  | some _ => [route_name0]
  | none =>
    let route_name := pyLower route_name0
    routesV3.foldl (fun result route =>
      let output := route.rid
      let n := route.name
      let number := route.number
      let pipeCount := n.data.count '|'
      let route_names := [n, (pySplit "|" n).getD 0 ""]
      let route_names :=
        if (isSubstr "||" n ∧ 2 < pipeCount) ∨ (¬ isSubstr "||" n ∧ 0 < pipeCount) then
          let eng_name := (pySplit "|" n).getD 1 ""
          if eng_name ≠ "" then route_names ++ [eng_name] else route_names
        else route_names
      let route_names :=
        if number ≠ "" ∧ number ≠ " " then
          route_names ++ (route_names.drop 1).map (fun t => t ++ " " ++ number)
        else route_names
      route_names.foldl (fun res x0 =>
        let x := pyStrip (pyLower x0)
        if x = route_name then res ++ [output]
        else if pyIsAscii x then res
        else if cc.t2s x = route_name then res ++ [output]
        else if cc.t2s (cc.jp2t x) = route_name then res ++ [output]
        else res) result) []

/-! ## `get_train` (source lines 315-402)

The per-station index is only read; the selected train `train_tt[route_id][i]`
is aliased and mutated by the `pop(0)` calls of the stop walk, so the model
threads both indices through and returns their final values. -/

abbrev StationTT : Type := List (String × List (Nat × String × Nat × Int))

/-- Instance search times out on this nesting; provide it stepwise. -/
instance stationEntryDecEq : DecidableEq (String × List (Nat × String × Nat × Int)) :=
  inferInstance

instance stationTTDecEq : DecidableEq (List (String × List (Nat × String × Nat × Int))) :=
  List.hasDecEq

abbrev TrainTT : Type := List (String × List (List Int))

inductive GetTrainRes where
  | stationNotFound
  | trainNotFound
  | found (route_name : String)
      (output : List (String × Option String × Option String × String))
      (msg : List String)
deriving DecidableEq, Repr

instance stTTPairDecEq : DecidableEq (StationTT × TrainTT) := instDecidableEqProd

instance getTrainResultDecEq : DecidableEq (GetTrainRes × StationTT × TrainTT) :=
  instDecidableEqProd

/-- Walk state of the `for i, x in enumerate(route_stations)` loop: the
(freshly built) formatted `timetable`, the aliased raw `train` list, the
accumulated `output` rows and the status `msg`. -/
structure WalkSt where
  tt : List String
  tr : List Int
  out : List (String × Option String × Option String × String)
  msg : List String
deriving Repr

/-- One iteration of `get_train`'s stop walk (source lines 366-399); an
`IndexError` from a `pop(0)` is caught and turns into `continue`, keeping the
pops that already happened. -/
def getTrainStep (all_stations : List (String × Station)) (dep : Int) (n : Nat)
    (i : Nat) (s : WalkSt) (x : Stop) : WalkSt :=
  let name0 := ((pySplit "|" ((aget all_stations x.sid).getD emptyStation).name).getD 0 "")
  if i = 0 then
    -- first stop: no arrival; `i == len(route_stations) - 1` reads `n = 1` here
    if n = 1 then
      { s with out := s.out ++ [(name0, none, none, x.sid)] }
    else
      match s.tt, s.tr with
      | t2v :: tt', v :: tr' =>
        let msg := if Int.emod v 86400 = Int.emod dep 86400 then [name0] else s.msg
        { tt := tt', tr := tr', out := s.out ++ [(name0, none, some t2v, x.sid)], msg := msg }
      | _ :: tt', [] => { s with tt := tt' }    -- timetable popped, train.pop raised
      | [], _ => s                              -- timetable.pop raised first
  else
    match s.tt, s.tr with
    | t1v :: tt', _ :: tr' =>
      let s := { s with tt := tt', tr := tr' }
      if i = n - 1 then
        { s with out := s.out ++ [(name0, some t1v, none, x.sid)] }
      else
        match s.tt, s.tr with
        | t2v :: tt', v :: tr' =>
          let msg := if Int.emod v 86400 = Int.emod dep 86400 then [name0] else s.msg
          { tt := tt', tr := tr',
            out := s.out ++ [(name0, some t1v, some t2v, x.sid)], msg := msg }
        | _ :: tt', [] => { s with tt := tt' }
        | [], _ => s
    | _ :: tt', [] => { s with tt := tt' }
    | [], _ => s

def get_train (cc : CC) (data : MData) (station : String) (train_id : Nat)
    (station_tt : StationTT) (train_tt : TrainTT) :
    Except PyErr (GetTrainRes × StationTT × TrainTT) :=
  let station_id :=
    match pyToInt station with
    | some sid => station_short_id_to_id data sid
    | none => station_name_to_id cc data station true
  match station_id with
  | none => .ok (.stationNotFound, station_tt, train_tt)
  | some sid =>
    match (aget station_tt sid).bind (fun d => aget d train_id) with
    | none => .ok (.trainNotFound, station_tt, train_tt)
    | some (route_id, i, dep) =>
      match aget train_tt route_id with
      | none => .error .keyError
      | some tl =>
        match tl.get? i with
        | none => .error .indexError
        | some train =>
          match aget data.routes route_id with
          | none => .error .keyError
          | some route_data =>
            let route_name := pyReplace (pyReplace route_data.name "||" " ") "|" " "
            let route_stations := route_data.stations
            let timetable := train.map (fun x => convert_time (Int.emod x 86400) true)
            let w := foldIdx (getTrainStep data.stations dep route_stations.length)
              0 ⟨timetable, train, [], []⟩ route_stations
            .ok (.found route_name w.out w.msg, station_tt,
                 aset train_tt route_id (tl.set i w.tr))

/-! ## The selector sampling loops (source lines 441-473 and 556-581)

`random.choice` draws come from the index stream `pick` (argument `k` counts
the draws made so far); `fuel` bounds the number of loop iterations the model
unrolls, `none` meaning the Python loop is still running after that many
iterations.  The state carries `route_data`'s binding status (`rd? = none`
while the variable is still unbound). -/

/-- The `while` condition of both selectors, negated: `ok true` means the
window `min(train) <= t <= max(train)` (or shifted by a day) is satisfied and
the loop exits; `min`/`max` of an empty train raise `ValueError`. -/
def windowCheck (dep : Int) (train : List Int) : Except PyErr Bool :=
  match listMin train, listMax train with
  | some mn, some mx =>
    .ok (decide (¬ ((dep < mn ∨ mx < dep) ∧ (dep + 86400 < mn ∨ mx < dep + 86400))))
  | _, _ => .error .valueError

/-- Primary sampling loop of `random_train` (source lines 560-578).  Note the
two `continue` paths (empty train list, hidden route) skip the `tries`
decrement; the hidden-route path runs after `route_data` is bound. -/
def rtLoop (data : MData) (all_trains : List (String × List (List Int)))
    (dep : Int) (pick : Nat → Nat) :
    Nat → Nat → Option String → List Int → Nat →
    Option (Except PyErr (Option String × List Int × Nat))
  | 0, _, _, _, _ => none
  | fuel + 1, k, rd?, train, tries =>
    match windowCheck dep train with
    | .error e => some (.error e)
    | .ok true => some (.ok (rd?, train, tries))
    | .ok false =>
      match pyChoice all_trains (pick k) with
      | .error e => some (.error e)
      | .ok route =>
        if route.2.length = 0 then rtLoop data all_trains dep pick fuel (k + 1) rd? train tries
        else
          match aget data.routes route.1 with
          | none => some (.error .keyError)
          | some rdata =>
            if rdata.hidden then
              rtLoop data all_trains dep pick fuel (k + 1) (some route.1) train tries
            else
              match pyChoice route.2 (pick (k + 1)) with
              | .error e => some (.error e)
              | .ok train' =>
                if tries - 1 = 0 then some (.ok (some route.1, train', 0))
                else rtLoop data all_trains dep pick fuel (k + 2) (some route.1) train' (tries - 1)

/-- `random_train`'s selection phase: reduce the target time, run the loop,
then the first use of `route_data` (source line 581) raises `NameError` when
the loop exited without ever binding it. -/
def random_train_sel (data : MData) (trains : List (String × List (List Int)))
    (departure_time : Int) (pick : Nat → Nat) (fuel : Nat) :
    Option (Except PyErr (String × List Int × Nat)) :=
  let dep := Int.emod departure_time 86400
  match rtLoop data trains dep pick fuel 0 none [-1] 3000 with
  | none => none
  | some (.error e) => some (.error e)
  | some (.ok (none, _, _)) => some (.error .nameError)
  | some (.ok (some rid, train, tries)) => some (.ok (rid, train, tries))

/-- Primary sampling loop of `route_random_train` (source lines 444-461): the
empty-route `continue` skips the decrement; the train is drawn before
`route_data` is bound; after the decrement an empty chosen train just loops
again (where the re-evaluated `while` condition raises `ValueError`). -/
def rrtLoop (data : MData) (all_trains : List (String × List (List Int)))
    (dep : Int) (pick : Nat → Nat) :
    Nat → Nat → Option String → List Int → Nat →
    Option (Except PyErr (Option String × List Int × Nat))
  | 0, _, _, _, _ => none
  | fuel + 1, k, rd?, train, tries =>
    match windowCheck dep train with
    | .error e => some (.error e)
    | .ok true => some (.ok (rd?, train, tries))
    | .ok false =>
      match pyChoice all_trains (pick k) with
      | .error e => some (.error e)
      | .ok route =>
        if route.2.length = 0 then rrtLoop data all_trains dep pick fuel (k + 1) rd? train tries
        else
          match pyChoice route.2 (pick (k + 1)) with
          | .error e => some (.error e)
          | .ok train' =>
            match aget data.routes route.1 with
            | none => some (.error .keyError)
            | some _ =>
              if tries - 1 = 0 then some (.ok (some route.1, train', 0))
              else rrtLoop data all_trains dep pick fuel (k + 2) (some route.1) train' (tries - 1)

inductive RouteSelRes where
  | noRoute
  | sel (route_id : String) (train : List Int) (triesLeft : Nat)
deriving DecidableEq, Repr

/-- `route_random_train`'s selection phase (source lines 405-473): resolve the
route name, build `all_trains`, run the primary loop; a `train` still equal to
the `[-1]` sentinel afterwards enters the fallback loop, whose first condition
evaluation `len(route[1])` on the initializer `route = [0, 0]` raises
`TypeError`; otherwise the first `route_data` use raises `NameError` if the
variable is unbound. -/
def route_random_train_sel (cc : CC) (routesV3 : List RouteV3) (data : MData)
    (route : String) (trains : List (String × List (List Int)))
    (departure_time : Int) (pick : Nat → Nat) (fuel : Nat) :
    Option (Except PyErr RouteSelRes) :=
  let route_id := route_name_to_id cc routesV3 route
  if route_id = [] then some (.ok .noRoute)
  else
    let dep := Int.emod departure_time 86400
    let all_trains := (route_id.filter (fun x => (aget trains x).isSome)).map
      (fun x => (x, (aget trains x).getD []))
    match rrtLoop data all_trains dep pick fuel 0 none [-1] 3000 with
    | none => none
    | some (.error e) => some (.error e)
    | some (.ok (rd?, train, tries)) =>
      if train = [-1] then some (.error .typeError)
      else
        match rd? with
        | none => some (.error .nameError)
        | some rid => some (.ok (.sel rid train tries))

/-- `main_random_train` (source lines 1256-1284): one retry of the whole
selection on `IndexError`, with a fresh random stream. -/
def main_random_train_sel (data : MData) (trains : List (String × List (List Int)))
    (departure_time : Int) (pick1 pick2 : Nat → Nat) (fuel : Nat) :
    Option (Except PyErr (String × List Int × Nat)) :=
  match random_train_sel data trains departure_time pick1 fuel with
  | some (.error .indexError) => random_train_sel data trains departure_time pick2 fuel
  | r => r

/-! ## `get_text_timetable` (source lines 635-710)

Modelled from the resolved station onwards (`station_tt[station_id]`). -/

/-- Build `dep_dict`: group the station's trains by route, duplicating each
departure at `+0` and `+86400` (source lines 663-671). -/
def buildDepDict (entries : List (Nat × String × Nat × Int)) :
    List (String × List (Int × Nat × Nat)) :=
  entries.foldl (fun dd e =>
    let cur := (aget dd e.2.1).getD []
    aset dd e.2.1 (cur ++ [(e.2.2.2, e.1, e.2.2.1), (e.2.2.2 + 86400, e.1, e.2.2.1)])) []

/-- One step of the `dep_dict` builder fold (named for the proofs;
`buildDepDict entries` is definitionally `entries.foldl buildStep []`). -/
def buildStep (dd : List (String × List (Int × Nat × Nat)))
    (e : Nat × String × Nat × Int) : List (String × List (Int × Nat × Nat)) :=
  aset dd e.2.1 ((aget dd e.2.1).getD [] ++
    [(e.2.2.2, e.1, e.2.2.1), (e.2.2.2 + 86400, e.1, e.2.2.1)])

/-- Python tuple order on the `(dep, train_id, i)` entries. -/
def entryLE (a b : Int × Nat × Nat) : Bool :=
  if a.1 ≠ b.1 then decide (a.1 < b.1)
  else if a.2.1 ≠ b.2.1 then decide (a.2.1 < b.2.1)
  else decide (a.2.2 ≤ b.2.2)

/-- `k.sort(key=lambda x: data['routes'][x[0]]['name'])` — stable sort of the
groups by the raw route name. -/
def sortGroups (data : MData) (dd : List (String × List (Int × Nat × Nat))) :
    List (String × List (Int × Nat × Nat)) :=
  pySort (fun a b =>
    pyStrLe ((aget data.routes a.1).getD emptyRoute).name
            ((aget data.routes b.1).getD emptyRoute).name) dd

/-- The per-group emission loop (source lines 683-699): starting from
`count = 1`, append each entry strictly after `departure_time`; only when
`count` reaches 3 (i.e. two entries were emitted) is the template flushed to
the output (`some`); otherwise the group contributes nothing (`none`). -/
def emitEntries (departure_time : Int) :
    List (Int × Nat × Nat) → Nat → String → Option String
  | [], _, _ => none
  | y :: rest, count, template =>
    if departure_time < y.1 then
      let dep_time := convert_time (Int.emod y.1 86400) true
      let template := template ++ dep_time ++ "(" ++ toString y.2.1 ++ "), "
      if count + 1 = 3 then some (String.mk (template.data.take (template.data.length - 2)) ++ "\n")
      else emitEntries departure_time rest (count + 1) template
    else emitEntries departure_time rest count template

/-- One group's contribution to the output text. -/
def groupLine (data : MData) (departure_time : Int)
    (g : String × List (Int × Nat × Nat)) : Option String :=
  let rn := ((aget data.routes g.1).getD emptyRoute).name
  let route_name := pyReplace (pyReplace rn "||" " ") "|" " "
  emitEntries departure_time (pySort entryLE g.2) 1 (route_name ++ ": ")

/-- The body text accumulated by the `for route_id, x in k:` loop. -/
def get_text_body (data : MData) (entries : List (Nat × String × Nat × Int))
    (departure_time : Int) : String :=
  (sortGroups data (buildDepDict entries)).foldl
    (fun out g => out ++ ((groupLine data departure_time g).getD "")) ""

/-- Hex-string value, Python `int('0x' + s, 16)`. -/
def hexVal (s : String) : Option Nat :=
  s.data.foldl (fun acc c =>
    match acc with
    | none => none
    | some n =>
      if '0' ≤ c ∧ c ≤ '9' then some (16 * n + (c.toNat - '0'.toNat))
      else if 'a' ≤ c ∧ c ≤ 'f' then some (16 * n + (c.toNat - 'a'.toNat + 10))
      else if 'A' ≤ c ∧ c ≤ 'F' then some (16 * n + (c.toNat - 'A'.toNat + 10))
      else none) (if s.data = [] then none else some 0)

/-- `get_text_timetable` from the resolved station id onwards (source lines
662-710), including the header line and the final `t2s ∘ jp2t` conversion. -/
def get_text_timetable_core (cc : CC) (data : MData) (station_id : String)
    (departure_time : Int) (station_tt : StationTT) : Except PyErr String :=
  match aget station_tt station_id with
  | none => .error .keyError
  | some entries =>
    let output := get_text_body data entries departure_time
    match aget data.stations station_id with
    | none => .error .keyError
    | some sd =>
      let nm := (pySplit "|" sd.name).getD 0 ""
      match hexVal sd.station with
      | none => .error .valueError
      | some short =>
        .ok (cc.t2s (cc.jp2t (nm ++ "站 - ID: " ++ toString short ++ "\n" ++ output)))

/-! ## `get_sta_directions`: connected components and destination labels
(source lines 938-965 and 1149-1210) -/

/-- The recursive `dfs(node, component)`: mark the node visited, add it to the
current component, recurse into unvisited neighbours.  `fuel` bounds the
recursion depth; the caller provides more fuel than there are nodes, so the
`0` case is never reached in an actual run. -/
def dfs {κ : Type} [DecidableEq κ] (graph : List (κ × List κ)) :
    Nat → κ → List κ × List κ → List κ × List κ
  | 0, _, vc => vc
  | fuel + 1, node, vc =>
    ((aget graph node).getD []).foldl
      (fun vc' nb => if nb ∈ vc'.1 then vc' else dfs graph fuel nb vc')
      (node :: vc.1, node :: vc.2)

def graphSize {κ : Type} (graph : List (κ × List κ)) : Nat :=
  graph.length + graph.foldl (fun n p => n + p.2.length) 0

/-- `find_connected_components(graph)` (source lines 938-965): one DFS per
unvisited key, each component returned sorted (`tuple(sorted(component))`). -/
def find_connected_components {κ : Type} [DecidableEq κ] (le : κ → κ → Bool)
    (graph : List (κ × List κ)) : List (List κ) :=
  (graph.foldl (fun (acc : List κ × List (List κ)) p =>
    if p.1 ∈ acc.1 then acc
    else
      let vc := dfs graph (graphSize graph + 1) p.1 (acc.1, [])
      (vc.1, acc.2 ++ [pySort le vc.2])) ([], [])).2

/-- One step of the component fold (named for the proofs;
`find_connected_components le graph` is definitionally
`(graph.foldl (fccStep le graph) ([], [])).2`). -/
def fccStep {κ : Type} [DecidableEq κ] (le : κ → κ → Bool)
    (graph : List (κ × List κ)) (acc : List κ × List (List κ))
    (p : κ × List κ) : List κ × List (List κ) :=
  if p.1 ∈ acc.1 then acc
  else
    let vc := dfs graph (graphSize graph + 1) p.1 (acc.1, [])
    (vc.1, acc.2 ++ [pySort le vc.2])

/-- Python `s.strip('])')`. -/
def stripBrk (s : String) : String :=
  ⟨((s.data.dropWhile (fun c => c = ']' ∨ c = ')')).reverse.dropWhile
      (fun c => c = ']' ∨ c = ')')).reverse⟩

/-- The `next_stations` / `last_stations` accumulation for one cluster of the
direction table (source lines 1156-1197). -/
def clusterNextLast (data : MData) (station_id sta_name : String)
    (cluster : List String) : List String × List String :=
  cluster.foldl (fun (acc : List String × List String) z =>
    let route_data := (aget data.routes z).getD emptyRoute
    if route_data.circularState = "CLOCKWISE" then (acc.1, acc.2 ++ ["顺时针"])
    else if route_data.circularState = "ANTICLOCKWISE" then (acc.1, acc.2 ++ ["逆时针"])
    else
      let station_ids := route_data.stations.map (·.sid)
      let stations_names := station_ids.map
        (fun y => ((aget data.stations y).getD emptyStation).name)
      if station_id ∉ station_ids then acc
      else
        let i := station_ids.indexOf station_id
        if i ≠ station_ids.length - 1 then
          let next_station := (pySplit "|" (stations_names.getD (i + 1) "")).getD 0 ""
          let last0 := (pySplit "|" (stations_names.getLastD "")).getD 0 ""
          let last_station :=
            if isSubstr "WIP" last0 then pyStrip (stripBrk ((pySplit "WIP" last0).getD 1 ""))
            else last0
          let ls := if last_station ∉ acc.2 ∧ last_station ≠ sta_name
            then acc.2 ++ [last_station] else acc.2
          let ns := if next_station ∉ acc.1 ∧ next_station ≠ sta_name
            then acc.1 ++ [next_station] else acc.1
          (ns, ls)
        else acc) ([], [])

/-- One cluster of the `for x in all_route_ids:` loop (source lines
1155-1208): sort the labels; an empty label list is skipped (`continue`)
without touching the table or the counter. -/
def processCluster (data : MData) (station_id sta_name template1 : String)
    (acc : String × List (Nat × List String) × Nat) (x : List String) :
    String × List (Nat × List String) × Nat :=
  let last_stations :=
    pySort pyStrLe (clusterNextLast data station_id sta_name x).2
  if last_stations = [] then acc
  else
    let template2 := pyReplace (pyReplace template1 "\x7b\x7bsta\x7d\x7d"
      (String.intercalate "/" last_stations)) "\x7b\x7bid\x7d\x7d" (toString acc.2.2)
    (acc.1 ++ template2, acc.2.1 ++ [(acc.2.2, x)], acc.2.2 + 1)

/-! ## Concrete example data used by witnesses and counterexamples

All strings are ASCII, so the OpenCC converters act as the identity on them
and `idCC` instantiates them faithfully. -/

/-- A 3-stop route matching end-to-end scenario 3 of the spec. -/
def exRoute8 : Route :=
  { name := "Line|L1", number := "",
    stations := [⟨"s1", 0, 0, 0, 0⟩, ⟨"s2", 5000, 1, 0, 0⟩, ⟨"s3", 0, 2, 0, 0⟩],
    durations := [60000, 120000], hidden := false, circularState := "NONE",
    rtype := "train_normal" }

def exData8 : MData :=
  { stations := [("s1", ⟨"S1|a", "c0", none⟩), ("s2", ⟨"S2|b", "c1", none⟩),
                 ("s3", ⟨"S3|c", "c2", none⟩)],
    routes := [("r1", exRoute8)],
    station_routes := [] }

/-- A 2-stop route for the `get_train` mutation example. -/
def exRoute1 : Route :=
  { name := "Line|L1", number := "",
    stations := [⟨"s1", 0, 0, 0, 0⟩, ⟨"s2", 0, 1, 0, 0⟩],
    durations := [100000], hidden := false, circularState := "NONE",
    rtype := "train_normal" }

def exData1 : MData :=
  { stations := [("s1", ⟨"S1|a", "a", none⟩), ("s2", ⟨"S2|b", "b", none⟩)],
    routes := [("r1", exRoute1)], station_routes := [] }

/-- Data whose only route is hidden (for the selector-loop examples). -/
def exDataHidden : MData :=
  { stations := [], routes := [("r1", { exRoute8 with hidden := true })],
    station_routes := [] }

/-- A station whose id shares nothing with its name variants. -/
def exData7 : MData :=
  { stations := [("x", ⟨"Foo|F", "aa", none⟩)], routes := [], station_routes := [] }

/-- A small symmetric graph: one two-node component plus one isolated node. -/
def exGraph9 : List (String × List String) :=
  [("a", ["b"]), ("b", ["a"]), ("c", [])]

/-- Two routes whose raw-name order (`'B' < '|'`) differs from the order of
their display names (`' ' < 'B'`). -/
def exData6 : MData :=
  { stations := [],
    routes := [("ra", { exRoute8 with name := "A|1" }),
               ("rb", { exRoute8 with name := "AB" })],
    station_routes := [] }

/-- A station that has no coordinates, whose name is close to the query
`"abcdx"` (similarity ratio 8/11, far above the 0.2 cutoff). -/
def exData5 : MData :=
  { stations := [("sx", ⟨"abcdef", "00", none⟩)], routes := [], station_routes := [] }

/-! ## Specification predicates used by the theorems -/

/-- Modelled from the spec: an entry qualifies when its time is strictly
after `nowSecond`. -/
def qualifies (t : Int) (y : Int × Nat × Nat) : Bool := decide (t < y.1)

/-- The formatted form `HH:MM:SS(trainId), ` of one emitted entry. -/
def fmtEntry (y : Int × Nat × Nat) : String :=
  convert_time (Int.emod y.1 86400) true ++ "(" ++ toString y.2.1 ++ "), "

/-- Strip the trailing `", "` and terminate the line (`template[:-2] + chr(10)`). -/
def strip2nl (s : String) : String :=
  String.mk (s.data.take (s.data.length - 2)) ++ "\n"


/-- Train ids of a per-station index entry are exactly `1, 2, ..., n` in
assignment order. -/
def denseEntries (l : List (Nat × String × Nat × Int)) : Prop :=
  l.map Prod.fst = List.range' 1 l.length

/-- Every recorded departure second lies in `[0, 86400)`. -/
def entriesDepOK (l : List (Nat × String × Nat × Int)) : Prop :=
  ∀ e ∈ l, 0 ≤ e.2.2.2 ∧ e.2.2.2 < 86400

/-- The builder invariant on the counter map and the per-station index:
counters agree with the index, whose ids are dense from 1 with in-range
departure seconds. -/
def BInv2 (cnt : List (String × Nat))
    (ard : List (String × List (Nat × String × Nat × Int))) : Prop :=
  (∀ s c, aget cnt s = some c →
    ∃ l, aget ard s = some l ∧ c = l.length + 1 ∧
      denseEntries l ∧ entriesDepOK l) ∧
  (∀ s, aget cnt s = none → aget ard s = none)

/-- The builder invariant of a whole builder state. -/
def BInv (st : BState) : Prop := BInv2 st.station_train_id st.all_route_dep

/-- The selector's acceptance window: the `while` condition is false. -/
def windowSat (dep : Int) (train : List Int) : Prop :=
  windowCheck dep train = .ok true

/-- The display form of a route name used in the text timetable body:
`route_data['name'].replace('||', ' ').replace('|', ' ')`. -/
def routeDisplay (data : MData) (r : String) : String :=
  pyReplace (pyReplace ((aget data.routes r).getD emptyRoute).name "||" " ") "|" " "

/-! # Theorems -/

/-! ## Generic association-list lemmas -/

theorem aget_nil {α β : Type} [DecidableEq α] (k : α) :
    aget ([] : List (α × β)) k = none := rfl

theorem aget_aset_self {α β : Type} [DecidableEq α] (l : List (α × β)) (k : α) (v : β) :
    aget (aset l k v) k = some v := by
  induction l with
  | nil => simp [aget, aset]
  | cons p rest ih =>
    by_cases h : p.1 = k
    · simp [aget, aset, h]
    · simp [aget, aset, h, ih]

theorem aget_aset_ne {α β : Type} [DecidableEq α] (l : List (α × β)) (k k' : α) (v : β)
    (h : k ≠ k') : aget (aset l k v) k' = aget l k' := by
  induction l with
  | nil => simp [aget, aset, h]
  | cons p rest ih =>
    by_cases hp : p.1 = k
    · simp [aget, aset, hp, h]
    · simp [aget, aset, hp, ih]

theorem aset_fresh {α β : Type} [DecidableEq α] (l : List (α × β)) (k : α) (v : β)
    (h : aget l k = none) : aset l k v = l ++ [(k, v)] := by
  induction l with
  | nil => rfl
  | cons p rest ih =>
    obtain ⟨k', v'⟩ := p
    by_cases hp : k' = k
    · simp [aget, hp] at h
    · have h' : aget rest k = none := by simpa [aget, hp] using h
      simp [aset, hp, ih h']

/-- Fold preservation of an invariant. -/
theorem foldl_preserve {σ β : Type} {P : σ → Prop} (f : σ → β → σ) (l : List β)
    (init : σ) (h0 : P init) (hstep : ∀ acc x, x ∈ l → P acc → P (f acc x)) :
    P (l.foldl f init) := by
  induction l generalizing init with
  | nil => exact h0
  | cons b rest ih =>
    exact ih (f init b) (hstep init b (by simp) h0)
      (fun acc x hx => hstep acc x (by simp [hx]))

/-! ## Builder projection lemmas -/

theorem procDeparture_trains (route_id eng_name st1 : String) (dep_time : Int)
    (st : BState) (ix : Nat) (x : Int) :
    (procDeparture route_id eng_name st1 dep_time st ix x).trains = st.trains := rfl

theorem foldIdx_procDeparture_trains (route_id eng_name st1 : String) (dep_time : Int)
    (l : List Int) : ∀ (i : Nat) (st : BState),
    (foldIdx (fun ix st x => procDeparture route_id eng_name st1 dep_time st ix x)
      i st l).trains = st.trains := by
  induction l with
  | nil => intro i st; rfl
  | cons b rest ih =>
    intro i st
    simpa [foldIdx, procDeparture_trains] using ih (i + 1) _

theorem procPair_trains (route_id eng_name : String) (station_ids real_ids : List String)
    (durations dwells : List Int) (departures_new : List Int) (i : Nat)
    (acc : Int × List Int × BState) :
    (procPair route_id eng_name station_ids real_ids durations dwells
      departures_new i acc).2.2.trains = acc.2.2.trains := by
  unfold procPair
  dsimp only
  split
  · rfl
  · simp [foldIdx_procDeparture_trains, apply_ite BState.trains]

/-- The running offset after one pair step: `dep -= dur; dep -= dwell`. -/
theorem procPair_fst (route_id eng_name : String) (station_ids real_ids : List String)
    (durations dwells : List Int) (departures_new : List Int) (i : Nat)
    (acc : Int × List Int × BState) :
    (procPair route_id eng_name station_ids real_ids durations dwells
      departures_new i acc).1 =
      acc.1 - pyRound1000 (durations.getD (i - 1) 0) -
        pyRound1000 (dwells.getD (i - 1) 0) := by
  unfold procPair
  dsimp only
  split <;> rfl

/-- The timetable after one pair step: `(dep_time, arr_time)` prepended unless
the two short codes collapse. -/
theorem procPair_tt (route_id eng_name : String) (station_ids real_ids : List String)
    (durations dwells : List Int) (departures_new : List Int) (i : Nat)
    (acc : Int × List Int × BState) :
    (procPair route_id eng_name station_ids real_ids durations dwells
      departures_new i acc).2.1 =
      if station_ids.getD (i - 1) "" = station_ids.getD i "" then acc.2.1
      else (acc.1 - pyRound1000 (durations.getD (i - 1) 0)) :: acc.1 :: acc.2.1 := by
  unfold procPair
  dsimp only
  split
  · simp_all
  · simp_all

theorem pairLoop_trains (route_id eng_name : String) (station_ids real_ids : List String)
    (durations dwells : List Int) (departures_new : List Int) :
    ∀ (i : Nat) (acc : Int × List Int × BState),
    (pairLoop route_id eng_name station_ids real_ids durations dwells
      departures_new i acc).2.2.trains = acc.2.2.trains := by
  intro i
  induction i with
  | zero => intro acc; rfl
  | succ n ih =>
    intro acc
    rw [pairLoop, ih, procPair_trains]

/-! ## Builder invariant lemmas (C3) -/

theorem aget_eq_none_iff {α β : Type} [DecidableEq α] (l : List (α × β)) (k : α) :
    aget l k = none ↔ k ∉ l.map Prod.fst := by
  induction l with
  | nil => simp [aget]
  | cons p rest ih =>
    obtain ⟨k', v'⟩ := p
    by_cases hp : k' = k
    · simp [aget, hp]
    · simp [aget, hp, ih, Ne.symm hp]

theorem emod_day_range (a : Int) : 0 ≤ Int.emod a 86400 ∧ Int.emod a 86400 < 86400 :=
  ⟨Int.emod_nonneg a (by norm_num), Int.emod_lt_of_pos a (by norm_num)⟩

theorem procDeparture_BInv (route_id eng_name st1 : String) (dep_time : Int)
    (st : BState) (ix : Nat) (x : Int) (h : BInv st) :
    BInv (procDeparture route_id eng_name st1 dep_time st ix x) := by
  obtain ⟨h1, h2⟩ := h
  unfold procDeparture BInv BInv2
  dsimp only
  constructor
  · intro s c hs
    by_cases hss : st1 = s
    · subst hss
      rw [aget_aset_self] at hs
      cases hc : aget st.station_train_id st1 with
      | none =>
        have hard : aget st.all_route_dep st1 = none := h2 _ hc
        simp only [hc, Option.getD_none, hard] at hs ⊢
        injection hs with hs
        refine ⟨_, aget_aset_self _ _ _, ?_, ?_, ?_⟩
        · simp [aset, ← hs]
        · simp [aset, denseEntries, List.range']
        · intro e he
          simp [aset] at he
          subst he
          exact emod_day_range _
      | some c0 =>
        obtain ⟨l, hl, hlen, hdense, hdep⟩ := h1 _ _ hc
        have hfresh : aget l c0 = none := by
          rw [aget_eq_none_iff, hdense, hlen]
          intro hmem
          rw [List.mem_range'] at hmem
          omega
        simp only [hc, Option.getD_some, hl] at hs ⊢
        injection hs with hs
        rw [aset_fresh _ _ _ hfresh]
        refine ⟨_, aget_aset_self _ _ _, ?_, ?_, ?_⟩
        · simp [← hs, hlen]
        · unfold denseEntries at hdense ⊢
          rw [List.map_append, hdense, List.length_append]
          simp [List.range'_concat, hlen]
          omega
        · intro e he
          rcases List.mem_append.mp he with h' | h'
          · exact hdep _ h'
          · simp at h'
            subst h'
            exact emod_day_range _
    · rw [aget_aset_ne _ _ _ _ hss] at hs
      obtain ⟨l, hl, rest⟩ := h1 _ _ hs
      exact ⟨l, by rwa [aget_aset_ne _ _ _ _ hss], rest⟩
  · intro s hs
    by_cases hss : st1 = s
    · subst hss
      rw [aget_aset_self] at hs
      exact absurd hs (by simp)
    · rw [aget_aset_ne _ _ _ _ hss] at hs ⊢
      exact h2 _ hs

theorem foldIdx_procDeparture_BInv (route_id eng_name st1 : String) (dep_time : Int)
    (l : List Int) : ∀ (i : Nat) (st : BState), BInv st →
    BInv (foldIdx (fun ix st x => procDeparture route_id eng_name st1 dep_time st ix x)
      i st l) := by
  induction l with
  | nil => intro i st h; exact h
  | cons b rest ih =>
    intro i st h
    exact ih (i + 1) _ (procDeparture_BInv _ _ _ _ _ _ _ h)

theorem procPair_BInv (route_id eng_name : String) (station_ids real_ids : List String)
    (durations dwells : List Int) (departures_new : List Int) (i : Nat)
    (acc : Int × List Int × BState) (h : BInv acc.2.2) :
    BInv (procPair route_id eng_name station_ids real_ids durations dwells
      departures_new i acc).2.2 := by
  unfold procPair
  dsimp only
  split
  · exact h
  · show BInv2 _ _
    have hfold := foldIdx_procDeparture_BInv route_id eng_name
      (real_ids.getD (i - 1) "") (acc.1 - pyRound1000 (durations.getD (i - 1) 0))
      departures_new 0
    refine hfold _ ?_
    -- the dictionary-initialisation chain preserves the invariant
    unfold BInv BInv2
    simp only [apply_ite BState.station_train_id, apply_ite BState.all_route_dep]
    simp only [ite_self]
    by_cases hcnt : (aget acc.2.2.station_train_id (real_ids.getD (i - 1) "")).isSome
    · obtain ⟨c, hc⟩ := Option.isSome_iff_exists.mp hcnt
      obtain ⟨l, hl, -⟩ := h.1 _ _ hc
      simp only [hcnt, if_true, hl, Option.isSome_some, ite_self]
      exact h
    · have hc : aget acc.2.2.station_train_id (real_ids.getD (i - 1) "") = none :=
        Option.not_isSome_iff_eq_none.mp hcnt
      have hard := h.2 _ hc
      simp only [hcnt, if_false, hard, Option.isSome_none, Bool.false_eq_true]
      constructor
      · intro s c hs
        by_cases hss : (real_ids.getD (i - 1) "") = s
        · subst hss
          rw [aget_aset_self] at hs
          injection hs with hs
          exact ⟨[], aget_aset_self _ _ _, by simpa using hs.symm, by simp [denseEntries],
            by simp [entriesDepOK]⟩
        · rw [aget_aset_ne _ _ _ _ hss] at hs
          obtain ⟨l, hl, rest⟩ := h.1 _ _ hs
          exact ⟨l, by rwa [aget_aset_ne _ _ _ _ hss], rest⟩
      · intro s hs
        by_cases hss : (real_ids.getD (i - 1) "") = s
        · subst hss
          rw [aget_aset_self] at hs
          exact absurd hs (by simp)
        · rw [aget_aset_ne _ _ _ _ hss] at hs ⊢
          exact h.2 _ hs

theorem pairLoop_BInv (route_id eng_name : String) (station_ids real_ids : List String)
    (durations dwells : List Int) (departures_new : List Int) :
    ∀ (i : Nat) (d : Int) (tt : List Int) (st : BState), BInv st →
    BInv (pairLoop route_id eng_name station_ids real_ids durations dwells
      departures_new i (d, tt, st)).2.2 := by
  intro i
  induction i with
  | zero => intro d tt st h; exact h
  | succ n ih =>
    intro d tt st h
    rw [pairLoop]
    rcases hpp : procPair route_id eng_name station_ids real_ids durations dwells
      departures_new (n + 1) (d, tt, st) with ⟨d', tt', st'⟩
    apply ih
    have h2 := procPair_BInv route_id eng_name station_ids real_ids durations dwells
      departures_new (n + 1) (d, tt, st) h
    rw [hpp] at h2
    exact h2

theorem procRoute_BInv (data : MData) (ign : List String) (st : BState)
    (rid : String) (deps : List Int) (h : BInv st) :
    BInv (procRoute data ign st rid deps) := by
  unfold procRoute
  dsimp only
  split
  · exact h
  · split_ifs <;>
      first
      | exact h
      | exact pairLoop_BInv _ _ _ _ _ _ _ _ _ _ _ h

theorem gen_departure_data_BInv (data : MData) (dep_data : List (String × List Int))
    (ign : List String) : BInv (gen_departure_data data dep_data ign) := by
  unfold gen_departure_data
  apply foldl_preserve (P := BInv)
  · exact ⟨fun s c hs => absurd hs (by simp [aget]), fun s _ => rfl⟩
  · intro acc x _ hacc
    exact procRoute_BInv data ign acc x.1 x.2 hacc

/-- **C3.** For every input (routes, raw departure offsets, ignored names)
and the fixed association-list iteration order, in the per-station index
produced by the builder the train ids assigned at each station are exactly
`1, 2, ..., n` — gap-free from 1 and strictly increasing in assignment
order — and the departure-second component of every recorded tuple lies in
`[0, 86400)`. -/
theorem C3_per_station_ids_dense (data : MData) (dep_data : List (String × List Int))
    (ign : List String) (s : String) (l : List (Nat × String × Nat × Int))
    (hl : aget (gen_departure_data data dep_data ign).all_route_dep s = some l) :
    l.map Prod.fst = List.range' 1 l.length ∧
    ∀ e ∈ l, 0 ≤ e.2.2.2 ∧ e.2.2.2 < 86400 := by
  have h := gen_departure_data_BInv data dep_data ign
  cases hc : aget (gen_departure_data data dep_data ign).station_train_id s with
  | none => rw [h.2 _ hc] at hl; cases hl
  | some c =>
    obtain ⟨l2, hl2, -, hdense, hdep⟩ := h.1 _ _ hc
    rw [hl2] at hl
    injection hl with hl
    subst hl
    exact ⟨hdense, hdep⟩

/-- **C3 witness.** The invariant evaluated on the scenario data. -/
theorem C3_per_station_ids_dense_witness :
    (([(1, ("r1", 0, (28680 : Int)))] : List (Nat × String × Nat × Int)).map Prod.fst =
      List.range' 1 1) ∧
    ∀ e ∈ ([(1, ("r1", 0, (28680 : Int)))] : List (Nat × String × Nat × Int)),
      0 ≤ e.2.2.2 ∧ e.2.2.2 < 86400 := by
  exact C3_per_station_ids_dense exData8 [("r1", [0])] [] "s2"
    [(1, ("r1", 0, 28680))] (by decide)

/-! ## C7 -/

/-- **C7 (amended).** `route_name_to_id` is idempotent on canonical route
ids: resolving a route id present in the data returns exactly `[r]`, via the
initial exact-id scan.  (`station_name_to_id` is not idempotent on station
ids — see the counterexample — because it never compares the query against
station ids.) -/
theorem C7_route_id_idempotent (cc : CC) (routesV3 : List RouteV3) (r : String)
    (hpresent : ∃ rt ∈ routesV3, rt.rid = r) :
    route_name_to_id cc routesV3 r = [r] := by
  unfold route_name_to_id
  cases hf : routesV3.find? (fun rt => r = rt.rid) with
  | some rt => rfl
  | none =>
    obtain ⟨rt, hmem, hrid⟩ := hpresent
    rw [List.find?_eq_none] at hf
    exact absurd (by simp [hrid]) (hf rt hmem)

/-- **C7 witness.** -/
theorem C7_route_id_idempotent_witness :
    route_name_to_id idCC [⟨"R1", "Name|N", "5"⟩] "R1" = ["R1"] :=
  C7_route_id_idempotent idCC [⟨"R1", "Name|N", "5"⟩] "R1"
    ⟨⟨"R1", "Name|N", "5"⟩, by simp, rfl⟩

/-- **C7 counterexample.** Resolving the canonical station id `"x"`, present
in the data, returns `none` rather than `"x"`: `station_name_to_id` matches
only name variants, never station ids.  (All strings are ASCII, so the
identity instantiation of the OpenCC converters is faithful.) -/
theorem C7_station_id_not_idempotent :
    (aget exData7.stations "x").isSome = true ∧
    station_name_to_id idCC exData7 "x" true ≠ some "x" := by
  constructor
  · rfl
  · decide


/-! ## C8 -/

/-- **C8.** For a route with 3 stops having pairwise-distinct short station
codes, durations `[60000, 120000]` ms, dwell times `[0, 5000, 0]` ms and raw
departure offsets `[0]`, the builder produces exactly one train for that
route, whose absolute offset list has the shape `[dep0, arr1, dep1, arr2]`
with `arr1 - dep0 = 60`, `dep1 - arr1 = 5` and `arr2 - dep1 = 120`. -/
theorem C8_three_stop_route_one_train
    (data : MData) (ign : List String) (rid : String) (route : Route)
    (e1 e2 e3 : Stop)
    (hr : aget data.routes rid = some route)
    (hn : route.name ∉ ign)
    (hst : route.stations = [e1, e2, e3])
    (hdw1 : e1.dwellTime = 0) (hdw2 : e2.dwellTime = 5000) (hdw3 : e3.dwellTime = 0)
    (hdur : route.durations = [60000, 120000])
    (hc12 : ((aget data.stations e1.sid).getD emptyStation).station ≠
            ((aget data.stations e2.sid).getD emptyStation).station)
    (hc23 : ((aget data.stations e2.sid).getD emptyStation).station ≠
            ((aget data.stations e3.sid).getD emptyStation).station) :
    ∃ dep0 arr1 dep1 arr2 : Int,
      aget (gen_departure_data data [(rid, [0])] ign).trains rid =
        some [[dep0, arr1, dep1, arr2]] ∧
      arr1 - dep0 = 60 ∧ dep1 - arr1 = 5 ∧ arr2 - dep1 = 120 := by
  refine ⟨28615, 28675, 28680, 28800, ?_, by norm_num, by norm_num, by norm_num⟩
  unfold gen_departure_data
  simp only [List.foldl]
  unfold procRoute
  simp only [hr]
  rw [if_neg hn]
  simp only [hst, hdur, List.map_cons, List.map_nil, hdw1, hdw2, hdw3]
  generalize ((aget data.stations e1.sid).getD emptyStation).station = c1 at *
  generalize ((aget data.stations e2.sid).getD emptyStation).station = c2 at *
  generalize ((aget data.stations e3.sid).getD emptyStation).station = c3 at *
  norm_num
  simp only [aget_nil, Option.isSome_none, Bool.false_eq_true, if_false,
    show pyRound1000 0 = 0 from by decide, neg_zero]
  generalize (match (pySplit "|" route.name)[1]? with
    | some e => if e = "" then (pySplit "|" route.name)[0]?.getD "" else e
    | none => (pySplit "|" route.name)[0]?.getD "") = en
  have hpl : ∀ (acc : Int × List Int × BState),
      pairLoop rid en [c1, c2, c3] [e1.sid, e2.sid, e3.sid] [60000, 120000]
        [0, 5000, 0] [0] 2 acc =
      procPair rid en [c1, c2, c3] [e1.sid, e2.sid, e3.sid] [60000, 120000]
        [0, 5000, 0] [0] 1
        (procPair rid en [c1, c2, c3] [e1.sid, e2.sid, e3.sid] [60000, 120000]
          [0, 5000, 0] [0] 2 acc) := fun _ => rfl
  rw [hpl]
  have h2tt : ∀ (acc : Int × List Int × BState), acc.2.1 = [] → acc.1 = 0 →
      (procPair rid en [c1, c2, c3] [e1.sid, e2.sid, e3.sid] [60000, 120000]
        [0, 5000, 0] [0] 2 acc).2.1 = [-120, 0] := by
    intro acc h1 h2
    rw [procPair_tt]
    simp [h1, h2, hc23, show pyRound1000 120000 = 120 from by decide]
  have h2fst : ∀ (acc : Int × List Int × BState), acc.1 = 0 →
      (procPair rid en [c1, c2, c3] [e1.sid, e2.sid, e3.sid] [60000, 120000]
        [0, 5000, 0] [0] 2 acc).1 = -125 := by
    intro acc h2
    rw [procPair_fst]
    simp [h2, show pyRound1000 120000 = 120 from by decide,
      show pyRound1000 5000 = 5 from by decide]
  have h1tt : ∀ (acc : Int × List Int × BState), acc.2.1 = [-120, 0] → acc.1 = -125 →
      (procPair rid en [c1, c2, c3] [e1.sid, e2.sid, e3.sid] [60000, 120000]
        [0, 5000, 0] [0] 1 acc).2.1 = [-185, -125, -120, 0] := by
    intro acc h1 h2
    rw [procPair_tt]
    simp [h1, h2, hc12, show pyRound1000 60000 = 60 from by decide]
  have htt : (procPair rid en [c1, c2, c3] [e1.sid, e2.sid, e3.sid] [60000, 120000]
      [0, 5000, 0] [0] 1
      (procPair rid en [c1, c2, c3] [e1.sid, e2.sid, e3.sid] [60000, 120000]
        [0, 5000, 0] [0] 2
        (0, [], ⟨[], [], aset [] rid [], []⟩))).2.1 = [-185, -125, -120, 0] :=
    h1tt _ (h2tt _ rfl rfl) (h2fst _ rfl)
  rw [htt]
  norm_num
  rw [procPair_trains, procPair_trains]
  simp [aget_aset_self]

/-- **C8 witness.** The scenario instantiated on `exData8`. -/
theorem C8_three_stop_route_one_train_witness :
    ∃ dep0 arr1 dep1 arr2 : Int,
      aget (gen_departure_data exData8 [("r1", [0])] []).trains "r1" =
        some [[dep0, arr1, dep1, arr2]] ∧
      arr1 - dep0 = 60 ∧ dep1 - arr1 = 5 ∧ arr2 - dep1 = 120 :=
  C8_three_stop_route_one_train exData8 [] "r1" exRoute8
    ⟨"s1", 0, 0, 0, 0⟩ ⟨"s2", 5000, 1, 0, 0⟩ ⟨"s3", 0, 2, 0, 0⟩
    rfl (by simp) rfl rfl rfl rfl rfl (by decide) (by decide)

/-! ## Selector loop lemmas and claims C2, C4, C10 -/

theorem getD_mem {α : Type} (l : List α) (i : Nat) (d : α) (hd : d ∈ l) :
    l.getD i d ∈ l := by
  rw [List.getD_eq_getElem?_getD]
  rcases h : l[i]? with _ | y
  · simpa using hd
  · simpa using List.getElem?_mem h

theorem pyChoice_ok {α : Type} (l : List α) (r : Nat) (hne : l ≠ []) :
    ∃ a, pyChoice l r = .ok a ∧ a ∈ l := by
  cases l with
  | nil => exact absurd rfl hne
  | cons x xs =>
    exact ⟨_, rfl, getD_mem _ _ _ (by simp)⟩

theorem windowCheck_sentinel (dep : Int) (hdep : 0 ≤ dep) :
    windowCheck dep [-1] = .ok false := by
  unfold windowCheck listMin listMax
  simp only [List.foldl]
  have h2 : ((dep < -1 ∨ -1 < dep) ∧ (dep + 86400 < -1 ∨ -1 < dep + 86400)) := by
    constructor
    · right; omega
    · right; omega
  simp [h2]

theorem rtLoop_stuck (data : MData) (all_trains : List (String × List (List Int)))
    (dep : Int) (pick : Nat → Nat) (hdep : 0 ≤ dep) (hne : all_trains ≠ [])
    (hstuck : ∀ p ∈ all_trains, p.2 = [] ∨
      ∃ rt, aget data.routes p.1 = some rt ∧ rt.hidden = true) :
    ∀ (fuel k : Nat) (rd? : Option String) (tries : Nat),
    rtLoop data all_trains dep pick fuel k rd? [-1] tries = none := by
  intro fuel
  induction fuel with
  | zero => intro k rd? tries; rfl
  | succ n ih =>
    intro k rd? tries
    rw [rtLoop, windowCheck_sentinel dep hdep]
    obtain ⟨route, hch, hmem⟩ := pyChoice_ok all_trains (pick k) hne
    rw [hch]
    rcases hstuck route hmem with hempty | ⟨rt, hrt, hhid⟩
    · simp [hempty, ih]
    · by_cases hlen : route.2.length = 0
      · simp [hlen, ih]
      · simp [hlen, hrt, hhid, ih]

theorem rtLoop_bounded (data : MData) (all_trains : List (String × List (List Int)))
    (dep : Int) (pick : Nat → Nat) (hne : all_trains ≠ [])
    (hgood : ∀ p ∈ all_trains, p.2 ≠ [] ∧
      ∀ rt, aget data.routes p.1 = some rt → rt.hidden = false) :
    ∀ (fuel tries k : Nat) (rd? : Option String) (train : List Int),
    1 ≤ tries → tries ≤ fuel →
    ∃ r, rtLoop data all_trains dep pick fuel k rd? train tries = some r := by
  intro fuel
  induction fuel with
  | zero => intro tries k rd? train h1 h2; omega
  | succ n ih =>
    intro tries k rd? train h1 h2
    rw [rtLoop]
    cases hw : windowCheck dep train with
    | error e => exact ⟨_, rfl⟩
    | ok b =>
      cases b with
      | true => exact ⟨_, rfl⟩
      | false =>
        obtain ⟨route, hch, hmem⟩ := pyChoice_ok all_trains (pick k) hne
        rw [hch]
        obtain ⟨hrlen, hrvis⟩ := hgood route hmem
        have hlen : ¬ route.2.length = 0 := by simpa using hrlen
        simp only [hlen, if_false]
        cases hrt : aget data.routes route.1 with
        | none => exact ⟨_, rfl⟩
        | some rt =>
          have hhid : rt.hidden = false := hrvis rt hrt
          simp only [hhid, Bool.false_eq_true, if_false]
          obtain ⟨train', hch2, -⟩ := pyChoice_ok route.2 (pick (k + 1)) hrlen
          rw [hch2]
          by_cases hz : tries - 1 = 0
          · simp only [hz, if_true]
            exact ⟨_, rfl⟩
          · simp only [hz, if_false]
            exact ih (tries - 1) (k + 2) (some route.1) train' (by omega) (by omega)

theorem rrtLoop_bounded (data : MData) (all_trains : List (String × List (List Int)))
    (dep : Int) (pick : Nat → Nat) (hne : all_trains ≠ [])
    (hgood : ∀ p ∈ all_trains, p.2 ≠ []) :
    ∀ (fuel tries k : Nat) (rd? : Option String) (train : List Int),
    1 ≤ tries → tries ≤ fuel →
    ∃ r, rrtLoop data all_trains dep pick fuel k rd? train tries = some r := by
  intro fuel
  induction fuel with
  | zero => intro tries k rd? train h1 h2; omega
  | succ n ih =>
    intro tries k rd? train h1 h2
    rw [rrtLoop]
    cases hw : windowCheck dep train with
    | error e => exact ⟨_, rfl⟩
    | ok b =>
      cases b with
      | true => exact ⟨_, rfl⟩
      | false =>
        obtain ⟨route, hch, hmem⟩ := pyChoice_ok all_trains (pick k) hne
        rw [hch]
        have hrlen := hgood route hmem
        have hlen : ¬ route.2.length = 0 := by simpa using hrlen
        simp only [hlen, if_false]
        obtain ⟨train', hch2, -⟩ := pyChoice_ok route.2 (pick (k + 1)) hrlen
        rw [hch2]
        cases hrt : aget data.routes route.1 with
        | none => exact ⟨_, rfl⟩
        | some rt =>
          by_cases hz : tries - 1 = 0
          · simp only [hz, if_true]
            exact ⟨_, rfl⟩
          · simp only [hz, if_false]
            exact ih (tries - 1) (k + 2) (some route.1) train' (by omega) (by omega)

theorem rtLoop_window (data : MData) (all_trains : List (String × List (List Int)))
    (dep : Int) (pick : Nat → Nat) :
    ∀ (fuel k : Nat) (rd? : Option String) (train : List Int) (tries : Nat)
      (rd' : Option String) (train' : List Int) (tries' : Nat),
    rtLoop data all_trains dep pick fuel k rd? train tries =
      some (.ok (rd', train', tries')) →
    1 ≤ tries' → windowCheck dep train' = .ok true := by
  intro fuel
  induction fuel with
  | zero => intro k rd? train tries rd' train' tries' h _; cases h
  | succ n ih =>
    intro k rd? train tries rd' train' tries' h h1
    rw [rtLoop] at h
    split at h
    next heq => simp at h
    next heq =>
      obtain ⟨-, h3, -⟩ : rd? = rd' ∧ train = train' ∧ tries = tries' := by simpa using h
      subst h3
      exact heq
    next heq =>
      split at h
      next heq2 => simp at h
      next route heq2 =>
        split at h
        · exact ih _ _ _ _ _ _ _ h h1
        · split at h
          next heq3 => simp at h
          next rt heq3 =>
            split at h
            · exact ih _ _ _ _ _ _ _ h h1
            · split at h
              next heq4 => simp at h
              next tr2 heq4 =>
                split at h
                · obtain ⟨-, -, h4⟩ : some route.1 = rd' ∧ tr2 = train' ∧ 0 = tries' := by
                    simpa using h
                  omega
                · exact ih _ _ _ _ _ _ _ h h1

theorem rrtLoop_window (data : MData) (all_trains : List (String × List (List Int)))
    (dep : Int) (pick : Nat → Nat) :
    ∀ (fuel k : Nat) (rd? : Option String) (train : List Int) (tries : Nat)
      (rd' : Option String) (train' : List Int) (tries' : Nat),
    rrtLoop data all_trains dep pick fuel k rd? train tries =
      some (.ok (rd', train', tries')) →
    1 ≤ tries' → windowCheck dep train' = .ok true := by
  intro fuel
  induction fuel with
  | zero => intro k rd? train tries rd' train' tries' h _; cases h
  | succ n ih =>
    intro k rd? train tries rd' train' tries' h h1
    rw [rrtLoop] at h
    split at h
    next heq => simp at h
    next heq =>
      obtain ⟨-, h3, -⟩ : rd? = rd' ∧ train = train' ∧ tries = tries' := by simpa using h
      subst h3
      exact heq
    next heq =>
      split at h
      next heq2 => simp at h
      next route heq2 =>
        split at h
        · exact ih _ _ _ _ _ _ _ h h1
        · split at h
          next heq3 => simp at h
          next tr2 heq3 =>
            split at h
            next heq4 => simp at h
            next rt heq4 =>
              split at h
              · obtain ⟨-, -, h4⟩ : some route.1 = rd' ∧ tr2 = train' ∧ 0 = tries' := by
                  simpa using h
                omega
              · exact ih _ _ _ _ _ _ _ h h1

theorem pyChoice_singleton {α : Type} (a : α) (r : Nat) : pyChoice [a] r = .ok a := by
  unfold pyChoice
  simp [Nat.mod_one, List.getD]

theorem rtLoop_exhaust_single (data : MData) (rid : String) (r : Route) (t : List Int)
    (dep : Int) (pick : Nat → Nat)
    (hr : aget data.routes rid = some r) (hvis : r.hidden = false)
    (ht : windowCheck dep t = .ok false) :
    ∀ (fuel tries k : Nat) (rd? : Option String) (train : List Int),
    windowCheck dep train = .ok false → 1 ≤ tries → tries ≤ fuel →
    rtLoop data [(rid, [t])] dep pick fuel k rd? train tries =
      some (.ok (some rid, t, 0)) := by
  intro fuel
  induction fuel with
  | zero => intro tries k rd? train _ h1 h2; omega
  | succ n ih =>
    intro tries k rd? train hw h1 h2
    rw [rtLoop, hw]
    have hch : pyChoice [(rid, [t])] (pick k) = .ok (rid, [t]) := pyChoice_singleton _ _
    rw [hch]
    simp only [List.length_cons, List.length_nil, Nat.succ_ne_zero, if_false, hr, hvis,
      Bool.false_eq_true]
    have hch2 : pyChoice [t] (pick (k + 1)) = .ok t := pyChoice_singleton _ _
    rw [hch2]
    by_cases hz : tries - 1 = 0
    · simp [hz]
    · simp only [hz, if_false]
      exact ih (tries - 1) (k + 2) (some rid) t ht (by omega) (by omega)

/-- **C4 (amended).** Whenever a selector's primary loop exits because the
`while` condition became false — equivalently, with budget remaining
(`triesLeft ≥ 1`) — the selected train satisfies
`min(offsets) ≤ target ≤ max(offsets)` or the `+86400`-shifted window.  On
budget exhaustion (`triesLeft = 0`) the selectors return the last sampled
train with no window guarantee and no distinguishing flag (`random_train`
has no fallback loop at all; `route_random_train`'s fallback raises
`TypeError` on entry). -/
theorem C4_primary_loop_window :
    (∀ (data : MData) (trains : List (String × List (List Int))) (dt : Int)
       (pick : Nat → Nat) (fuel : Nat) (rid : String) (t : List Int) (tr : Nat),
       random_train_sel data trains dt pick fuel = some (.ok (rid, t, tr)) →
       1 ≤ tr → windowSat (Int.emod dt 86400) t) ∧
    (∀ (cc : CC) (routesV3 : List RouteV3) (data : MData) (route : String)
       (trains : List (String × List (List Int))) (dt : Int) (pick : Nat → Nat)
       (fuel : Nat) (rid : String) (t : List Int) (tr : Nat),
       route_random_train_sel cc routesV3 data route trains dt pick fuel =
         some (.ok (.sel rid t tr)) →
       1 ≤ tr → windowSat (Int.emod dt 86400) t) := by
  constructor
  · intro data trains dt pick fuel rid t tr h h1
    unfold random_train_sel at h
    dsimp only at h
    split at h
    · cases h
    next heq => simp at h
    next heq => simp at h
    next rid' train tries heq =>
      obtain ⟨h2, h3, h4⟩ : rid' = rid ∧ train = t ∧ tries = tr := by simpa using h
      subst h2; subst h3; subst h4
      exact rtLoop_window data trains _ pick fuel 0 none [-1] 3000 _ _ _ heq h1
  · intro cc routesV3 data route trains dt pick fuel rid t tr h h1
    unfold route_random_train_sel at h
    dsimp only at h
    split at h
    · simp at h
    · split at h
      · cases h
      next heq => simp at h
      next rd? train tries heq =>
        split at h
        · simp at h
        · split at h
          · simp at h
          next rid' =>
            obtain ⟨h2, h3, h4⟩ : rid' = rid ∧ train = t ∧ tries = tr := by simpa using h
            subst h2; subst h3; subst h4
            exact rrtLoop_window data _ _ pick fuel 0 none [-1] 3000 _ _ _ heq h1

/-- **C4 witness.** A window-satisfying selection with budget remaining. -/
theorem C4_primary_loop_window_witness :
    windowSat (Int.emod 100 86400) [0, 86400] :=
  C4_primary_loop_window.1 exData8 [("r1", [[0, 86400]])] 100 (fun _ => 0) 10
    "r1" [0, 86400] 2999 rfl (by norm_num)

/-- **C4 counterexample.** With a single visible route whose only train is
`[28800]` and target time `0`, the primary loop (there is no fallback in
`random_train`) exhausts its 3000 attempts and returns that train, which
violates the window — and the returned value carries no flag. -/
theorem C4_exhaustion_counterexample :
    random_train_sel exData8 [("r1", [[28800]])] 0 (fun _ => 0) 4000 =
      some (.ok ("r1", [28800], 0)) ∧ ¬ windowSat 0 [28800] := by
  constructor
  · unfold random_train_sel
    dsimp only
    rw [show Int.emod 0 86400 = 0 from rfl]
    rw [rtLoop_exhaust_single exData8 "r1" exRoute8 [28800] 0 (fun _ => 0) rfl rfl
      (by decide) 4000 3000 0 none [-1] (by decide) (by norm_num) (by norm_num)]
  · unfold windowSat
    decide

/-- **C2 (amended).** The 3000-attempt budget bounds only the sampling
iterations that pass the guards: when every sampled route has a non-empty
train list (and, for `random_train`, is not hidden), the primary loop
terminates within 3000 iterations.  Iterations that fail a guard `continue`
without decrementing the budget, so the loops do not terminate when every
route is hidden or empty (see the counterexample). -/
theorem C2_budget_bounds_counted_attempts :
    (∀ (data : MData) (all_trains : List (String × List (List Int))) (dep : Int)
       (pick : Nat → Nat), all_trains ≠ [] →
       (∀ p ∈ all_trains, p.2 ≠ [] ∧
         ∀ rt, aget data.routes p.1 = some rt → rt.hidden = false) →
       ∃ r, rtLoop data all_trains dep pick 3000 0 none [-1] 3000 = some r) ∧
    (∀ (data : MData) (all_trains : List (String × List (List Int))) (dep : Int)
       (pick : Nat → Nat), all_trains ≠ [] → (∀ p ∈ all_trains, p.2 ≠ []) →
       ∃ r, rrtLoop data all_trains dep pick 3000 0 none [-1] 3000 = some r) := by
  constructor
  · intro data all_trains dep pick hne hgood
    exact rtLoop_bounded data all_trains dep pick hne hgood 3000 3000 0 none [-1]
      (by norm_num) (by norm_num)
  · intro data all_trains dep pick hne hgood
    exact rrtLoop_bounded data all_trains dep pick hne hgood 3000 3000 0 none [-1]
      (by norm_num) (by norm_num)

/-- **C2 witness.** The bound instantiated on a one-route input. -/
theorem C2_budget_bounds_counted_attempts_witness :
    ∃ r, rtLoop exData8 [("r1", [[28800]])] 0 (fun _ => 0) 3000 0 none [-1] 3000 =
      some r := by
  refine C2_budget_bounds_counted_attempts.1 exData8 [("r1", [[28800]])] 0 (fun _ => 0) (by simp) ?_
  intro p hp
  simp only [List.mem_singleton] at hp
  subst hp
  refine ⟨by simp, ?_⟩
  intro rt hrt
  injection hrt with h
  rw [← h]
  rfl

/-- **C2 counterexample.** With the only route hidden, `random_train`'s
primary loop is still running after 5000 iterations — beyond the claimed
3000 + 1000 hard bound — because the hidden-route `continue` never
decrements `tries`. -/
theorem C2_hidden_routes_never_terminate :
    rtLoop exDataHidden [("r1", [[28800]])] 0 (fun _ => 0) 5000 0 none [-1] 3000 =
      none := by
  refine rtLoop_stuck exDataHidden [("r1", [[28800]])] 0 (fun _ => 0) (by norm_num)
    (by simp) ?_ 5000 0 none 3000
  intro p hp
  simp only [List.mem_singleton] at hp
  subst hp
  exact Or.inr ⟨{ exRoute8 with hidden := true }, rfl, rfl⟩

/-- **C10 (amended).** An empty trains mapping makes `random_train` raise
`IndexError` from `random.choice` on the first iteration; but when every
route is hidden or has an empty train list the loop never terminates — it
neither raises (`route_data` being unbound never surfaces as a `NameError`)
nor returns; and `main_random_train` catches an `IndexError` from the first
call and retries the whole selection once. -/
theorem C10_empty_trains_raise_stuck_loops_never_raise :
    (∀ (data : MData) (dt : Int) (pick : Nat → Nat) (fuel : Nat),
       random_train_sel data [] dt pick (fuel + 1) = some (.error .indexError)) ∧
    (∀ (data : MData) (all_trains : List (String × List (List Int))) (dt : Int)
       (pick : Nat → Nat) (fuel : Nat), all_trains ≠ [] →
       (∀ p ∈ all_trains, p.2 = [] ∨
         ∃ rt, aget data.routes p.1 = some rt ∧ rt.hidden = true) →
       random_train_sel data all_trains dt pick fuel = none) ∧
    (∀ (data : MData) (trains : List (String × List (List Int))) (dt : Int)
       (p1 p2 : Nat → Nat) (fuel : Nat),
       random_train_sel data trains dt p1 fuel = some (.error .indexError) →
       main_random_train_sel data trains dt p1 p2 fuel =
         random_train_sel data trains dt p2 fuel) := by
  refine ⟨?_, ?_, ?_⟩
  · intro data dt pick fuel
    unfold random_train_sel
    dsimp only
    have hd : (0 : Int) ≤ Int.emod dt 86400 := Int.emod_nonneg dt (by norm_num)
    rw [rtLoop, windowCheck_sentinel (Int.emod dt 86400) hd]
    rfl
  · intro data all_trains dt pick fuel hne hstuck
    unfold random_train_sel
    dsimp only
    have hd : (0 : Int) ≤ Int.emod dt 86400 := Int.emod_nonneg dt (by norm_num)
    rw [rtLoop_stuck data all_trains (Int.emod dt 86400) pick hd hne hstuck]
  · intro data trains dt p1 p2 fuel h
    unfold main_random_train_sel
    rw [h]

/-- **C10 witness.** The `IndexError` and the stuck loop on concrete data. -/
theorem C10_empty_trains_raise_stuck_loops_never_raise_witness :
    random_train_sel exData8 [] 5 (fun _ => 0) 3 = some (.error .indexError) ∧
    random_train_sel exData8 [("r1", [])] 7 (fun _ => 0) 9 = none := by
  constructor
  · exact C10_empty_trains_raise_stuck_loops_never_raise.1 exData8 5 (fun _ => 0) 2
  · refine C10_empty_trains_raise_stuck_loops_never_raise.2.1 exData8 [("r1", [])] 7 (fun _ => 0) 9 (by simp) ?_
    intro p hp
    simp only [List.mem_singleton] at hp
    subst hp
    exact Or.inl rfl

/-- **C10 counterexample.** With one visible route whose train list is
empty, `random_train` neither raises nor returns even after 5000 loop
iterations — contradicting the claim that the call raises. -/
theorem C10_empty_route_list_counterexample :
    random_train_sel exData8 [("r1", [])] 0 (fun _ => 0) 5000 = none := by
  unfold random_train_sel
  dsimp only
  have hd : (0 : Int) ≤ Int.emod 0 86400 := Int.emod_nonneg 0 (by norm_num)
  rw [rtLoop_stuck exData8 [("r1", [])] (Int.emod 0 86400) (fun _ => 0) hd (by simp) ?_]
  intro p hp
  simp only [List.mem_singleton] at hp
  subst hp
  exact Or.inl rfl

/-! ## C1: `get_train` and the derived indices -/

theorem getTrainStep_drop (all_stations : List (String × Station)) (dep : Int)
    (n i : Nat) (s : WalkSt) (x : Stop) :
    ∃ j, (getTrainStep all_stations dep n i s x).tr = s.tr.drop j := by
  rcases s with ⟨tt, tr, out, msg⟩
  unfold getTrainStep
  dsimp only
  split
  · split
    · exact ⟨0, rfl⟩
    · rcases tt with _ | ⟨t1, tt1⟩
      · exact ⟨0, rfl⟩
      · rcases tr with _ | ⟨v1, tr1⟩
        · exact ⟨0, rfl⟩
        · exact ⟨1, rfl⟩
  · rcases tt with _ | ⟨t1, tt1⟩
    · exact ⟨0, rfl⟩
    · rcases tr with _ | ⟨v1, tr1⟩
      · exact ⟨0, rfl⟩
      · dsimp only
        split
        · exact ⟨1, rfl⟩
        · rcases tt1 with _ | ⟨t2, tt2⟩
          · exact ⟨1, rfl⟩
          · rcases tr1 with _ | ⟨v2, tr2⟩
            · exact ⟨1, rfl⟩
            · exact ⟨2, rfl⟩

theorem walkFold_drop (all_stations : List (String × Station)) (dep : Int) (n : Nat)
    (t0 : List Int) :
    ∀ (stops : List Stop) (i : Nat) (s : WalkSt) (k0 : Nat), s.tr = t0.drop k0 →
    ∃ k, (foldIdx (getTrainStep all_stations dep n) i s stops).tr = t0.drop k := by
  intro stops
  induction stops with
  | nil => intro i s k0 h; exact ⟨k0, h⟩
  | cons x rest ih =>
    intro i s k0 h
    rw [foldIdx]
    obtain ⟨j, hj⟩ := getTrainStep_drop all_stations dep n i s x
    refine ih (i + 1) _ (k0 + j) ?_
    rw [hj, h, List.drop_drop]

theorem walkFold_len_le (all_stations : List (String × Station)) (dep : Int) (n : Nat) :
    ∀ (stops : List Stop) (i : Nat) (s : WalkSt),
    (foldIdx (getTrainStep all_stations dep n) i s stops).tr.length ≤ s.tr.length := by
  intro stops
  induction stops with
  | nil => intro i s; exact le_refl _
  | cons x rest ih =>
    intro i s
    rw [foldIdx]
    refine le_trans (ih (i + 1) _) ?_
    obtain ⟨j, hj⟩ := getTrainStep_drop all_stations dep n i s x
    rw [hj, List.length_drop]
    omega

theorem getTrainStep_first_strict (all_stations : List (String × Station)) (dep : Int)
    (n : Nat) (hn : 2 ≤ n) (v : Int) (tr : List Int) (tt : List String)
    (htt : tt ≠ []) (out : List (String × Option String × Option String × String))
    (msg : List String) (x : Stop) :
    (getTrainStep all_stations dep n 0 ⟨tt, v :: tr, out, msg⟩ x).tr.length <
      (v :: tr).length := by
  rcases tt with _ | ⟨t1, tt1⟩
  · exact absurd rfl htt
  · unfold getTrainStep
    have hn1 : ¬ n = 1 := by omega
    simp [hn1]

/-- On the success path, `get_train` returns the per-station index unchanged
and writes back the per-route list with the selected train replaced by a tail
of itself (the `pop(0)` calls), strictly shorter whenever the route has at
least two stops and the stored train was non-empty. -/
theorem get_train_mutation_spec (cc : CC) (data : MData) (station : String) (train_id : Nat)
    (station_tt : StationTT) (train_tt : TrainTT)
    (sid rid : String) (idx : Nat) (dep : Int) (tl : List (List Int))
    (train : List Int) (route : Route)
    (hres : (match pyToInt station with
      | some s => station_short_id_to_id data s
      | none => station_name_to_id cc data station true) = some sid)
    (hlook : (aget station_tt sid).bind (fun d => aget d train_id) =
      some (rid, idx, dep))
    (httt : aget train_tt rid = some tl)
    (htl : tl.get? idx = some train)
    (hroute : aget data.routes rid = some route) :
    ∃ res k,
      get_train cc data station train_id station_tt train_tt =
        .ok (res, station_tt, aset train_tt rid (tl.set idx (train.drop k))) ∧
      (2 ≤ route.stations.length → train ≠ [] → 1 ≤ k) := by
  unfold get_train
  dsimp only
  rw [hres]
  dsimp only
  rw [hlook]
  dsimp only
  rw [httt]
  dsimp only
  rw [htl]
  dsimp only
  rw [hroute]
  dsimp only
  obtain ⟨k, hk⟩ := walkFold_drop data.stations dep route.stations.length train
    route.stations 0 ⟨train.map (fun x => convert_time (Int.emod x 86400) true), train, [], []⟩
    0 (by simp)
  refine ⟨_, k, by rw [hk], ?_⟩
  intro hn hne
  rcases hst : route.stations with _ | ⟨x, rest⟩
  · rw [hst] at hn; simp at hn
  · rcases htr : train with _ | ⟨v, tr⟩
    · exact absurd htr hne
    · have hlt : (foldIdx (getTrainStep data.stations dep route.stations.length) 0
          ⟨train.map (fun x => convert_time (Int.emod x 86400) true), train, [], []⟩
          route.stations).tr.length < train.length := by
        conv_lhs => rw [hst, htr]
        conv_rhs => rw [htr]
        rw [foldIdx]
        refine lt_of_le_of_lt (walkFold_len_le _ _ _ _ _ _) ?_
        have h5 := getTrainStep_first_strict data.stations dep (x :: rest).length
          (by rw [← hst]; exact hn)
          v tr ((v :: tr).map (fun y => convert_time (Int.emod y 86400) true))
          (by simp) [] [] x
        simpa using h5
      rw [hk, List.length_drop] at hlt
      have : 0 < train.length := by rw [htr]; simp
      omega

theorem get_train_stt_preserved (cc : CC) (data : MData) (station : String)
    (train_id : Nat) (station_tt : StationTT) (train_tt : TrainTT)
    (res : GetTrainRes) (stt' : StationTT) (ttt' : TrainTT)
    (h : get_train cc data station train_id station_tt train_tt =
      .ok (res, stt', ttt')) : stt' = station_tt := by
  unfold get_train at h
  dsimp only at h
  split at h
  · obtain ⟨-, h2, -⟩ : GetTrainRes.stationNotFound = res ∧ station_tt = stt' ∧
      train_tt = ttt' := by simpa using h
    exact h2.symm
  · split at h
    · obtain ⟨-, h2, -⟩ : GetTrainRes.trainNotFound = res ∧ station_tt = stt' ∧
        train_tt = ttt' := by simpa using h
      exact h2.symm
    · split at h
      · cases h
      · split at h
        · cases h
        · split at h
          · cases h
          · obtain ⟨-, h2, -⟩ : _ ∧ station_tt = stt' ∧ _ := by simpa using h
            exact h2.symm

/-- **C1 (amended).** `get_train` leaves the per-station index unchanged in
every non-raising outcome, but it does not leave the per-route train list
unchanged: on the success path the stored selected train is mutated in place
to a tail (`drop k`) of its previous value, strictly shorter whenever the
route has at least two stops and the stored train was non-empty.  (The
selectors' stop walks contain the same `pop(0)` pattern on the aliased
chosen train.) -/
theorem C1_queries_mutate_train_index :
    (∀ (cc : CC) (data : MData) (station : String) (train_id : Nat)
       (station_tt : StationTT) (train_tt : TrainTT) (res : GetTrainRes)
       (stt' : StationTT) (ttt' : TrainTT),
       get_train cc data station train_id station_tt train_tt =
         .ok (res, stt', ttt') → stt' = station_tt) ∧
    (∀ (cc : CC) (data : MData) (station : String) (train_id : Nat)
       (station_tt : StationTT) (train_tt : TrainTT) (sid rid : String)
       (idx : Nat) (dep : Int) (tl : List (List Int)) (train : List Int)
       (route : Route),
       (match pyToInt station with
         | some s => station_short_id_to_id data s
         | none => station_name_to_id cc data station true) = some sid →
       (aget station_tt sid).bind (fun d => aget d train_id) = some (rid, idx, dep) →
       aget train_tt rid = some tl →
       tl.get? idx = some train →
       aget data.routes rid = some route →
       ∃ res k,
         get_train cc data station train_id station_tt train_tt =
           .ok (res, station_tt, aset train_tt rid (tl.set idx (train.drop k))) ∧
         (2 ≤ route.stations.length → train ≠ [] → 1 ≤ k)) := by
  constructor
  · exact get_train_stt_preserved
  · intro cc data station train_id station_tt train_tt sid rid idx dep tl train route
      h1 h2 h3 h4 h5
    exact get_train_mutation_spec cc data station train_id station_tt train_tt
      sid rid idx dep tl train route h1 h2 h3 h4 h5

/-- **C1 witness.** The mutation law evaluated on a 2-stop route. -/
theorem C1_queries_mutate_train_index_witness :
    ∃ res k,
      get_train idCC exData1 "10" 1 [("s1", [(1, ("r1", 0, 100))])]
          [("r1", [[100, 200]])] =
        .ok (res, [("s1", [(1, ("r1", 0, 100))])],
          aset [("r1", [[100, 200]])] "r1"
            ([[100, 200]].set 0 ([100, 200].drop k))) ∧
      (2 ≤ exRoute1.stations.length → [100, 200] ≠ ([] : List Int) → 1 ≤ k) :=
  C1_queries_mutate_train_index.2 idCC exData1 "10" 1
    [("s1", [(1, ("r1", 0, 100))])] [("r1", [[100, 200]])]
    "s1" "r1" 0 100 [[100, 200]] [100, 200] exRoute1 rfl rfl rfl rfl rfl

/-- **C1 counterexample.** `get_train` on a 2-stop route with stored train
`[100, 200]` empties the stored list: the per-route train list after the call
differs from its value before, refuting that every query leaves both derived
indices unchanged. -/
theorem C1_get_train_leaves_indices_unchanged_cex :
    get_train idCC exData1 "10" 1 [("s1", [(1, ("r1", 0, 100))])]
        [("r1", [[100, 200]])] =
      .ok (.found "Line L1"
            [("S1", none, some "00:01:40", "s1"), ("S2", some "00:03:20", none, "s2")]
            ["S1"],
        [("s1", [(1, ("r1", 0, 100))])], [("r1", [[]])]) ∧
    ([("r1", [[]])] : TrainTT) ≠ [("r1", [[100, 200]])] := by
  constructor
  · decide
  · decide


/-! ## C6: the text timetable body (`get_text_timetable`) -/

/-- String concatenation is associative (lists of code points append). -/
theorem str_append_assoc (a b c : String) : a ++ b ++ c = a ++ (b ++ c) := by
  rcases a with ⟨da⟩; rcases b with ⟨db⟩; rcases c with ⟨dc⟩
  show String.mk ((da ++ db) ++ dc) = String.mk (da ++ (db ++ dc))
  rw [List.append_assoc]

/-- The per-group emission loop returns `none` exactly when the qualifying
entries (strictly after `t`) plus the entries already emitted fall short of
two emitted entries (`count` never reaches 3). -/
theorem emitEntries_none_iff (t : Int) :
    ∀ (es : List (Int × Nat × Nat)) (c : Nat) (tm : String), c ≤ 2 →
    (emitEntries t es c tm = none ↔
      (es.filter (fun y => qualifies t y)).length + c < 3) := by
  intro es
  induction es with
  | nil =>
    intro c tm hc
    simp [emitEntries]
    omega
  | cons y rest ih =>
    intro c tm hc
    rw [emitEntries]
    by_cases hq : qualifies t y = true
    · have hq' : t < y.1 := by simpa [qualifies] using hq
      rw [if_pos hq']
      by_cases h3 : c + 1 = 3
      · simp only [h3, if_pos rfl]
        simp [List.filter_cons, hq]
        omega
      · rw [if_neg h3]
        rw [ih (c + 1) _ (by omega)]
        simp [List.filter_cons, hq]
        omega
    · have hq' : ¬ t < y.1 := by simpa [qualifies] using hq
      rw [if_neg hq']
      rw [ih c tm hc]
      simp [List.filter_cons, hq]

/-- With one entry already emitted (`count = 2`), the first qualifying entry
is appended and the line is flushed. -/
theorem emitEntries_two (t : Int) :
    ∀ (es : List (Int × Nat × Nat)) (tm : String) (e : Int × Nat × Nat)
      (rest : List (Int × Nat × Nat)),
      es.filter (fun y => qualifies t y) = e :: rest →
      emitEntries t es 2 tm = some (strip2nl (tm ++ fmtEntry e)) := by
  intro es
  induction es with
  | nil => intro tm e rest h; simp at h
  | cons y ys ih =>
    intro tm e rest h
    rw [emitEntries]
    by_cases hq : qualifies t y = true
    · have hq' : t < y.1 := by simpa [qualifies] using hq
      rw [if_pos hq']
      simp only [List.filter_cons, hq, if_pos] at h
      obtain ⟨rfl, -⟩ : y = e ∧ ys.filter (fun y => qualifies t y) = rest := by
        exact ⟨(List.cons.injEq _ _ _ _ ▸ h).1, (List.cons.injEq _ _ _ _ ▸ h).2⟩
      norm_num
      simp [strip2nl, fmtEntry, str_append_assoc]
    · have hq' : ¬ t < y.1 := by simpa [qualifies] using hq
      rw [if_neg hq']
      simp only [List.filter_cons, hq] at h
      exact ih tm e rest (by simpa using h)

/-- From the initial `count = 1`, the line emitted is exactly the first two
qualifying entries appended to the template, stripped of the trailing
separator. -/
theorem emitEntries_one (t : Int) :
    ∀ (es : List (Int × Nat × Nat)) (tm : String) (e0 e1 : Int × Nat × Nat)
      (rest : List (Int × Nat × Nat)),
      es.filter (fun y => qualifies t y) = e0 :: e1 :: rest →
      emitEntries t es 1 tm = some (strip2nl (tm ++ fmtEntry e0 ++ fmtEntry e1)) := by
  intro es
  induction es with
  | nil => intro tm e0 e1 rest h; simp at h
  | cons y ys ih =>
    intro tm e0 e1 rest h
    rw [emitEntries]
    by_cases hq : qualifies t y = true
    · have hq' : t < y.1 := by simpa [qualifies] using hq
      rw [if_pos hq']
      simp only [List.filter_cons, hq, if_pos] at h
      obtain ⟨rfl, hrest⟩ : y = e0 ∧ ys.filter (fun y => qualifies t y) = e1 :: rest := by
        exact ⟨(List.cons.injEq _ _ _ _ ▸ h).1, (List.cons.injEq _ _ _ _ ▸ h).2⟩
      norm_num
      rw [emitEntries_two t ys _ e1 rest hrest]
      have harg : tm ++ convert_time (Int.emod y.1 86400) true ++ "(" ++
          toString y.2.1 ++ "), " = tm ++ fmtEntry y := by
        simp [fmtEntry, str_append_assoc]
      rw [harg]
    · have hq' : ¬ t < y.1 := by simpa [qualifies] using hq
      rw [if_neg hq']
      simp only [List.filter_cons, hq] at h
      exact ih tm e0 e1 rest (by simpa using h)

/-- A builder step never removes a recorded group member. -/
theorem buildStep_mono (dd : List (String × List (Int × Nat × Nat)))
    (e : Nat × String × Nat × Int) (r : String) (l : List (Int × Nat × Nat))
    (x : Int × Nat × Nat) (hg : aget dd r = some l) (hx : x ∈ l) :
    ∃ l', aget (buildStep dd e) r = some l' ∧ x ∈ l' := by
  by_cases hr : e.2.1 = r
  · subst hr
    refine ⟨_, aget_aset_self _ _ _, ?_⟩
    rw [hg]
    simp [hx]
  · exact ⟨l, by rw [buildStep, aget_aset_ne _ _ _ _ hr]; exact hg, hx⟩

/-- The `dep_dict` fold preserves recorded members and gives every processed
entry both its `dep` and its `dep + 86400` pair in its route's group. -/
theorem buildFold_mem :
    ∀ (entries : List (Nat × String × Nat × Int))
      (dd0 : List (String × List (Int × Nat × Nat))),
    (∀ (r : String) (l : List (Int × Nat × Nat)) (x : Int × Nat × Nat),
      aget dd0 r = some l → x ∈ l →
      ∃ l', aget (entries.foldl buildStep dd0) r = some l' ∧ x ∈ l') ∧
    (∀ e ∈ entries, ∃ l, aget (entries.foldl buildStep dd0) e.2.1 = some l ∧
      (e.2.2.2, e.1, e.2.2.1) ∈ l ∧ (e.2.2.2 + 86400, e.1, e.2.2.1) ∈ l) := by
  intro entries
  induction entries with
  | nil =>
    intro dd0
    exact ⟨fun r l x hg hx => ⟨l, hg, hx⟩, by simp⟩
  | cons e es ih =>
    intro dd0
    rw [List.foldl_cons]
    constructor
    · intro r l x hg hx
      obtain ⟨l1, hg1, hx1⟩ := buildStep_mono dd0 e r l x hg hx
      exact (ih (buildStep dd0 e)).1 r l1 x hg1 hx1
    · intro e' he'
      rcases List.mem_cons.mp he' with rfl | he'
      · have hg : aget (buildStep dd0 e') e'.2.1 =
            some ((aget dd0 e'.2.1).getD [] ++
              [(e'.2.2.2, e'.1, e'.2.2.1), (e'.2.2.2 + 86400, e'.1, e'.2.2.1)]) :=
          aget_aset_self _ _ _
        obtain ⟨l1, hg1, hx1⟩ := (ih (buildStep dd0 e')).1 e'.2.1 _
          (e'.2.2.2, e'.1, e'.2.2.1) hg (by simp)
        obtain ⟨l2, hg2, hx2⟩ := (ih (buildStep dd0 e')).1 e'.2.1 _
          (e'.2.2.2 + 86400, e'.1, e'.2.2.1) hg (by simp)
        rw [hg1] at hg2
        exact ⟨l1, hg1, hx1, by injection hg2 with hg2; rw [hg2]; exact hx2⟩
      · exact (ih (buildStep dd0 e)).2 e' he'

/-- The output body is the concatenation of the per-group lines, taken over
the sorted group list. -/
theorem get_text_body_join (data : MData)
    (entries : List (Nat × String × Nat × Int)) (t : Int) :
    get_text_body data entries t =
      String.join ((sortGroups data (buildDepDict entries)).map
        (fun g => (groupLine data t g).getD "")) := by
  simp [get_text_body, String.join, List.foldl_map]

/-- **C6** (amended).  The text timetable body groups the station's entries
by route, each departure contributing both `dep` and `dep + 86400` to its
route's group; the body is the concatenation of the per-group lines over the
sorted group list; and a group's line is `none` exactly when the group has
fewer than two entries strictly after `nowSecond` — when it has at least two,
the line is the route's display name followed by the first two qualifying
entries.  (Amended: a group with exactly one qualifying entry contributes
nothing, and the groups are sorted by the raw `|`-separated route name, not
by the display name.) -/
theorem C6_text_group_emission (data : MData)
    (entries : List (Nat × String × Nat × Int)) (t : Int) :
    (∀ e ∈ entries, ∃ l, aget (buildDepDict entries) e.2.1 = some l ∧
        (e.2.2.2, e.1, e.2.2.1) ∈ l ∧ (e.2.2.2 + 86400, e.1, e.2.2.1) ∈ l) ∧
    get_text_body data entries t =
      String.join ((sortGroups data (buildDepDict entries)).map
        (fun g => (groupLine data t g).getD "")) ∧
    ∀ g : String × List (Int × Nat × Nat),
      (groupLine data t g = none ↔
        ((pySort entryLE g.2).filter (fun y => qualifies t y)).length < 2) ∧
      ∀ e0 e1 rest,
        (pySort entryLE g.2).filter (fun y => qualifies t y) = e0 :: e1 :: rest →
        groupLine data t g =
          some (strip2nl (routeDisplay data g.1 ++ ": " ++ fmtEntry e0 ++ fmtEntry e1)) := by
  refine ⟨fun e he => (buildFold_mem entries []).2 e he,
    get_text_body_join data entries t, fun g => ⟨?_, ?_⟩⟩
  · show emitEntries t (pySort entryLE g.2) 1 (routeDisplay data g.1 ++ ": ") = none ↔ _
    rw [emitEntries_none_iff t (pySort entryLE g.2) 1 _ (by omega)]
    omega
  · intro e0 e1 rest h
    show emitEntries t (pySort entryLE g.2) 1 (routeDisplay data g.1 ++ ": ") = _
    rw [emitEntries_one t (pySort entryLE g.2) _ e0 e1 rest h]

/-- **C6 witness.**  On a sorted group holding `(40000, 1, 0)` and its
`+86400` duplicate: at `nowSecond = 50000` exactly one entry qualifies and
the line is `none`; at `nowSecond = 10000` both qualify and the line shows
them in order. -/
theorem C6_text_group_emission_witness :
    groupLine exData8 50000 ("r1", [(40000, 1, 0), (126400, 1, 0)]) = none ∧
    groupLine exData8 10000 ("r1", [(40000, 1, 0), (126400, 1, 0)]) =
      some (strip2nl (routeDisplay exData8 "r1" ++ ": " ++
        fmtEntry (40000, 1, 0) ++ fmtEntry (126400, 1, 0))) :=
  ⟨((C6_text_group_emission exData8 [] 50000).2.2
      ("r1", [(40000, 1, 0), (126400, 1, 0)])).1.mpr (by decide),
   ((C6_text_group_emission exData8 [] 10000).2.2
      ("r1", [(40000, 1, 0), (126400, 1, 0)])).2
      (40000, 1, 0) (126400, 1, 0) [] (by decide)⟩

/-- **C6 counterexample.**  A station with a single scheduled train whose
group has exactly one entry strictly after `nowSecond = 50000` produces an
empty body text — the qualifying entry is dropped, contradicting the claim
that it would still be emitted.  Moreover the groups are sorted by the raw
route name, which orders `"AB"` before `"A|1"`, while the display names
order `"A 1"` before `"AB"`. -/
theorem C6_single_qualifying_group_dropped :
    get_text_body exData8 [(1, ("r1", 0, 40000))] 50000 = "" ∧
    (sortGroups exData8 (buildDepDict [(1, ("r1", 0, 40000))])).map
      (fun g => ((pySort entryLE g.2).filter (fun y => qualifies 50000 y)).length)
      = [1] ∧
    (sortGroups exData6 [("rb", []), ("ra", [])]).map Prod.fst = ["rb", "ra"] ∧
    pySort (fun a b => pyStrLe (routeDisplay exData6 a) (routeDisplay exData6 b))
      ["rb", "ra"] = ["ra", "rb"] := by
  exact ⟨by decide, by decide, by decide, by decide⟩



/-! ## C9: connected components partition the graph; empty label sets skip -/

/-- Membership through the stable insertion step. -/
theorem mem_insertB {α : Type} (le : α → α → Bool) (x y : α) :
    ∀ l : List α, x ∈ insertB le y l ↔ x = y ∨ x ∈ l := by
  intro l
  induction l with
  | nil => simp [insertB]
  | cons z zs ih =>
    rw [insertB]
    by_cases h : le y z = true
    · rw [if_pos h]
      simp [List.mem_cons]
    · rw [if_neg h]
      simp [List.mem_cons, ih]
      tauto

/-- Sorting does not change membership. -/
theorem mem_pySort {α : Type} (le : α → α → Bool) (x : α) :
    ∀ l : List α, x ∈ pySort le l ↔ x ∈ l := by
  intro l
  induction l with
  | nil => simp [pySort]
  | cons z zs ih =>
    rw [pySort]
    simp [mem_insertB, ih]

/-- The neighbour fold of `dfs` prepends a block of fresh nodes to the
visited set and to the current component alike. -/
theorem dfs_fold_delta {κ : Type} [DecidableEq κ] (graph : List (κ × List κ))
    (fuel : Nat)
    (IH : ∀ (node : κ) (vc : List κ × List κ), node ∉ vc.1 →
      ∃ δ, dfs graph fuel node vc = (δ ++ vc.1, δ ++ vc.2) ∧ ∀ x ∈ δ, x ∉ vc.1) :
    ∀ (ns : List κ) (vc0 : List κ × List κ),
      ∃ δ, ns.foldl (fun vc' nb => if nb ∈ vc'.1 then vc' else dfs graph fuel nb vc') vc0
        = (δ ++ vc0.1, δ ++ vc0.2) ∧ ∀ x ∈ δ, x ∉ vc0.1 := by
  intro ns
  induction ns with
  | nil =>
    intro vc0
    exact ⟨[], by simp, by simp⟩
  | cons nb ns ihn =>
    intro vc0
    simp only [List.foldl_cons]
    by_cases hmem : nb ∈ vc0.1
    · rw [if_pos hmem]
      exact ihn vc0
    · rw [if_neg hmem]
      obtain ⟨δ1, h1, hf1⟩ := IH nb vc0 hmem
      rw [h1]
      obtain ⟨δ2, h2, hf2⟩ := ihn (δ1 ++ vc0.1, δ1 ++ vc0.2)
      refine ⟨δ2 ++ δ1, ?_, ?_⟩
      · rw [h2]
        simp [List.append_assoc]
      · intro x hx
        rcases List.mem_append.mp hx with hx | hx
        · have := hf2 x hx
          simp only [List.mem_append] at this
          exact fun hc => this (Or.inr hc)
        · exact hf1 x hx

/-- `dfs` on an unvisited node adds the same block of fresh nodes (holding
the entry node whenever any fuel is available) to the visited set and to the
component. -/
theorem dfs_delta {κ : Type} [DecidableEq κ] (graph : List (κ × List κ)) :
    ∀ (fuel : Nat) (node : κ) (vc : List κ × List κ), node ∉ vc.1 →
      ∃ δ, dfs graph fuel node vc = (δ ++ vc.1, δ ++ vc.2) ∧
        (∀ x ∈ δ, x ∉ vc.1) ∧ (1 ≤ fuel → node ∈ δ) := by
  intro fuel
  induction fuel with
  | zero =>
    intro node vc h
    exact ⟨[], by simp [dfs], by simp, by omega⟩
  | succ fuel ih =>
    intro node vc h
    rw [dfs]
    obtain ⟨δf, hf, hfr⟩ := dfs_fold_delta graph fuel
      (fun n v hn => (ih n v hn).imp (fun δ hδ => ⟨hδ.1, hδ.2.1⟩))
      ((aget graph node).getD []) (node :: vc.1, node :: vc.2)
    refine ⟨δf ++ [node], ?_, ?_, fun _ => by simp⟩
    · rw [hf]
      simp
    · intro x hx
      rcases List.mem_append.mp hx with hx | hx
      · have := hfr x hx
        simp only [List.mem_cons] at this
        exact fun hc => this (Or.inr hc)
      · simp only [List.mem_singleton] at hx
        subst hx
        exact h

/-- One component-fold step preserves the partition invariant: every node is
either visited and counted by exactly one emitted component, or unvisited
and counted by none; the processed key becomes visited. -/
theorem fccStep_inv {κ : Type} [DecidableEq κ] (le : κ → κ → Bool)
    (graph : List (κ × List κ)) (acc : List κ × List (List κ)) (p : κ × List κ)
    (h : ∀ x : κ, (x ∈ acc.1 ∧ acc.2.countP (fun c => decide (x ∈ c)) = 1) ∨
      (x ∉ acc.1 ∧ acc.2.countP (fun c => decide (x ∈ c)) = 0)) :
    (∀ x : κ, (x ∈ (fccStep le graph acc p).1 ∧
        (fccStep le graph acc p).2.countP (fun c => decide (x ∈ c)) = 1) ∨
      (x ∉ (fccStep le graph acc p).1 ∧
        (fccStep le graph acc p).2.countP (fun c => decide (x ∈ c)) = 0)) ∧
    (∀ x ∈ acc.1, x ∈ (fccStep le graph acc p).1) ∧
    p.1 ∈ (fccStep le graph acc p).1 := by
  by_cases hp : p.1 ∈ acc.1
  · simp only [fccStep, if_pos hp]
    exact ⟨h, fun x hx => hx, hp⟩
  · obtain ⟨δ, hd, hfr, hin⟩ :=
      dfs_delta graph (graphSize graph + 1) p.1 (acc.1, []) hp
    simp only [fccStep, if_neg hp]
    rw [hd]
    simp only [List.append_nil]
    have hnode : p.1 ∈ δ := hin (by omega)
    refine ⟨?_, fun x hx => List.mem_append.mpr (Or.inr hx),
      List.mem_append.mpr (Or.inl hnode)⟩
    intro x
    rcases h x with ⟨hx1, hx2⟩ | ⟨hx1, hx2⟩
    · left
      refine ⟨List.mem_append.mpr (Or.inr hx1), ?_⟩
      have hxδ : x ∉ δ := fun hc => hfr x hc hx1
      simp [List.countP_append, List.countP_cons, mem_pySort, hxδ, hx2]
    · by_cases hxδ : x ∈ δ
      · left
        refine ⟨List.mem_append.mpr (Or.inl hxδ), ?_⟩
        simp [List.countP_append, List.countP_cons, mem_pySort, hxδ, hx2]
      · right
        refine ⟨?_, ?_⟩
        · intro hc
          rcases List.mem_append.mp hc with hc | hc
          · exact hxδ hc
          · exact hx1 hc
        · simp [List.countP_append, List.countP_cons, mem_pySort, hxδ, hx2]

/-- The whole component fold keeps the partition invariant and visits the
key of every processed graph entry. -/
theorem fcc_fold_inv {κ : Type} [DecidableEq κ] (le : κ → κ → Bool)
    (graph : List (κ × List κ)) :
    ∀ (ps : List (κ × List κ)) (acc : List κ × List (List κ)),
      (∀ x : κ, (x ∈ acc.1 ∧ acc.2.countP (fun c => decide (x ∈ c)) = 1) ∨
        (x ∉ acc.1 ∧ acc.2.countP (fun c => decide (x ∈ c)) = 0)) →
      (∀ x : κ, (x ∈ (ps.foldl (fccStep le graph) acc).1 ∧
          (ps.foldl (fccStep le graph) acc).2.countP (fun c => decide (x ∈ c)) = 1) ∨
        (x ∉ (ps.foldl (fccStep le graph) acc).1 ∧
          (ps.foldl (fccStep le graph) acc).2.countP (fun c => decide (x ∈ c)) = 0)) ∧
      (∀ x ∈ acc.1, x ∈ (ps.foldl (fccStep le graph) acc).1) ∧
      (∀ p ∈ ps, p.1 ∈ (ps.foldl (fccStep le graph) acc).1) := by
  intro ps
  induction ps with
  | nil =>
    intro acc h
    exact ⟨h, fun x hx => hx, by simp⟩
  | cons p ps ih =>
    intro acc h
    simp only [List.foldl_cons]
    obtain ⟨h1, h2, h3⟩ := fccStep_inv le graph acc p h
    obtain ⟨g1, g2, g3⟩ := ih (fccStep le graph acc p) h1
    refine ⟨g1, fun x hx => g2 x (h2 x hx), ?_⟩
    intro q hq
    rcases List.mem_cons.mp hq with rfl | hq
    · exact g2 q.1 h3
    · exact g3 q hq

/-- **C9.**  For every graph handed to `find_connected_components` (as in
each of the three passes of the direction clusterer), every node of the
graph belongs to exactly one returned component; and a cluster whose member
routes yield no qualifying terminal-station label is skipped by the
direction-table loop without an error: the output text, the direction table
and the counter are all left unchanged. -/
theorem C9_components_partition_empty_cluster {κ : Type} [DecidableEq κ]
    (le : κ → κ → Bool) (graph : List (κ × List κ)) :
    (∀ p ∈ graph, (find_connected_components le graph).countP
        (fun c => decide (p.1 ∈ c)) = 1) ∧
    (∀ (data : MData) (sid sname tmpl : String)
        (acc : String × List (Nat × List String) × Nat) (x : List String),
      (clusterNextLast data sid sname x).2 = [] →
      processCluster data sid sname tmpl acc x = acc) := by
  constructor
  · intro p hp
    obtain ⟨g1, g2, g3⟩ := fcc_fold_inv le graph graph ([], [])
      (fun x => Or.inr ⟨by simp, by simp⟩)
    have hin := g3 p hp
    rcases g1 p.1 with ⟨h1, h2⟩ | ⟨h1, h2⟩
    · exact h2
    · exact absurd hin h1
  · intro data sid sname tmpl acc x hx
    simp only [processCluster]
    rw [hx]
    simp [pySort]

/-- **C9 witness.**  On the two-component graph `exGraph9` the node `"a"`
lies in exactly one component, and a cluster naming only the unknown route
`"zz"` leaves the direction-table state untouched. -/
theorem C9_components_partition_empty_cluster_witness :
    (find_connected_components pyStrLe exGraph9).countP
      (fun c => decide ("a" ∈ c)) = 1 ∧
    processCluster exData1 "s1" "S1" "T" ("", [], 0) ["zz"] = ("", [], 0) :=
  ⟨(C9_components_partition_empty_cluster pyStrLe exGraph9).1
      ("a", ["b"]) (by decide),
   (C9_components_partition_empty_cluster pyStrLe exGraph9).2
      exData1 "s1" "S1" "T" ("", [], 0) ["zz"] (by decide)⟩


/-! ## C5: fuzzy station matching (`get_close_matches`, `station_name_to_id`) -/

/-- The named scan pieces recompose `station_name_to_id` definitionally. -/
theorem station_name_to_id_eq (cc : CC) (data : MData) (sta0 : String) :
    station_name_to_id cc data sta0 true =
      (if (data.stations.foldl (snStep (snTry cc sta0)) ([], none, false)).2.2 = false ∧
          true = true then
        get_close_matches (snTry cc sta0)
          (data.stations.foldl (snStep (snTry cc sta0)) ([], none, false)).1 (1 / 5)
      else (data.stations.foldl (snStep (snTry cc sta0)) ([], none, false)).2.1) := rfl

theorem get_close_matches_eq (words : List String) (poss : List (String × String))
    (cutoff : ℚ) :
    get_close_matches words poss cutoff =
      (pymaxQ (words.foldl (fun res w => poss.foldl (gcmInner cutoff w) res)
        [((-1 : ℚ), (none : Option String))])).2 := rfl

theorem quickMatches_eq_fold (a b : List Char) :
    quickMatches a b = (a.foldl (qmStep b) (0, [])).1 := rfl

theorem commonPrefixLen_spec :
    ∀ u v : List Char, u.take (commonPrefixLen u v) = v.take (commonPrefixLen u v) ∧
      commonPrefixLen u v ≤ u.length ∧ commonPrefixLen u v ≤ v.length := by
  intro u
  induction u with
  | nil =>
    intro v
    cases v <;> simp [commonPrefixLen]
  | cons x xs ih =>
    intro v
    cases v with
    | nil => simp [commonPrefixLen]
    | cons y ys =>
      rw [commonPrefixLen]
      by_cases hxy : x = y
      · rw [if_pos hxy]
        obtain ⟨h1, h2, h3⟩ := ih ys
        subst hxy
        refine ⟨?_, by simpa using h2, by simpa using h3⟩
        simpa [List.take_succ_cons] using h1
      · rw [if_neg hxy]
        simp

theorem flm_spec (a b : List Char) :
    (a.drop (flm a b).1).take (flm a b).2.2 = (b.drop (flm a b).2.1).take (flm a b).2.2 ∧
    (flm a b).1 + (flm a b).2.2 ≤ a.length ∧
    (flm a b).2.1 + (flm a b).2.2 ≤ b.length := by
  refine @foldl_preserve (Nat × Nat × Nat) Nat
    (fun best =>
      (a.drop best.1).take best.2.2 = (b.drop best.2.1).take best.2.2 ∧
      best.1 + best.2.2 ≤ a.length ∧ best.2.1 + best.2.2 ≤ b.length)
    _ (List.range a.length) (0, 0, 0) ⟨by simp, by simp, by simp⟩ ?_
  intro best i _ hbest
  refine @foldl_preserve (Nat × Nat × Nat) Nat
    (fun best =>
      (a.drop best.1).take best.2.2 = (b.drop best.2.1).take best.2.2 ∧
      best.1 + best.2.2 ≤ a.length ∧ best.2.1 + best.2.2 ≤ b.length)
    _ (List.range b.length) best hbest ?_
  intro best' j _ hbest'
  by_cases hk : best'.2.2 < commonPrefixLen (a.drop i) (b.drop j)
  · rw [if_pos hk]
    obtain ⟨hcp, hcu, hcv⟩ := commonPrefixLen_spec (a.drop i) (b.drop j)
    refine ⟨hcp, ?_, ?_⟩
    · dsimp only
      simp only [List.length_drop] at hcu
      omega
    · dsimp only
      simp only [List.length_drop] at hcv
      omega
  · rw [if_neg hk]
    exact hbest'

theorem blocksTotalF_sublist :
    ∀ (fuel : Nat) (a b : List Char),
      ∃ s : List Char, s.Sublist a ∧ s.Sublist b ∧
        s.length = blocksTotalF fuel a b := by
  intro fuel
  induction fuel with
  | zero =>
    intro a b
    exact ⟨[], List.nil_sublist a, List.nil_sublist b, rfl⟩
  | succ fuel ih =>
    intro a b
    rw [blocksTotalF]
    by_cases h0 : (flm a b).2.2 = 0
    · rw [if_pos h0]
      exact ⟨[], List.nil_sublist a, List.nil_sublist b, rfl⟩
    · rw [if_neg h0]
      obtain ⟨s1, hs1a, hs1b, hl1⟩ := ih (a.take (flm a b).1) (b.take (flm a b).2.1)
      obtain ⟨s2, hs2a, hs2b, hl2⟩ :=
        ih (a.drop ((flm a b).1 + (flm a b).2.2)) (b.drop ((flm a b).2.1 + (flm a b).2.2))
      obtain ⟨hblk, hba, hbb⟩ := flm_spec a b
      refine ⟨s1 ++ (a.drop (flm a b).1).take (flm a b).2.2 ++ s2, ?_, ?_, ?_⟩
      · have hsplit : a = (a.take (flm a b).1 ++ (a.drop (flm a b).1).take (flm a b).2.2)
            ++ a.drop ((flm a b).1 + (flm a b).2.2) := by
          conv_lhs => rw [← List.take_append_drop (flm a b).1 a]
          rw [List.append_assoc]
          congr 1
          conv_lhs => rw [← List.take_append_drop (flm a b).2.2 (a.drop (flm a b).1)]
          rw [List.drop_drop]
        conv_rhs => rw [hsplit]
        exact (hs1a.append (List.Sublist.refl _)).append hs2a
      · have hsplit : b = (b.take (flm a b).2.1 ++ (b.drop (flm a b).2.1).take (flm a b).2.2)
            ++ b.drop ((flm a b).2.1 + (flm a b).2.2) := by
          conv_lhs => rw [← List.take_append_drop (flm a b).2.1 b]
          rw [List.append_assoc]
          congr 1
          conv_lhs => rw [← List.take_append_drop (flm a b).2.2 (b.drop (flm a b).2.1)]
          rw [List.drop_drop]
        conv_rhs => rw [hsplit]
        rw [hblk]
        exact (hs1b.append (List.Sublist.refl _)).append hs2b
      · have hlblk : ((a.drop (flm a b).1).take (flm a b).2.2).length = (flm a b).2.2 := by
          simp only [List.length_take, List.length_drop]
          omega
        simp only [List.length_append, hl1, hl2, hlblk]

theorem qm_fold (b : List Char) :
    ∀ (ys xs : List Char) (p : Nat × List (Char × Int)),
      (∀ c, c ∈ xs → aget p.2 c = some ((b.count c : Int) - xs.count c)) →
      (∀ c, c ∉ xs → aget p.2 c = none) →
      p.1 = Finset.sum xs.toFinset (fun c => min (xs.count c) (b.count c)) →
      (ys.foldl (qmStep b) p).1 =
        Finset.sum (xs ++ ys).toFinset
          (fun c => min ((xs ++ ys).count c) (b.count c)) := by
  intro ys
  induction ys with
  | nil =>
    intro xs p h1 h2 h3
    simpa using h3
  | cons y ys ih =>
    intro xs p h1 h2 h3
    rw [List.foldl_cons]
    have hnumb : (match aget p.2 y with
        | some n => n
        | none => (b.count y : Int)) = (b.count y : Int) - xs.count y := by
      by_cases hy : y ∈ xs
      · rw [h1 y hy]
      · rw [h2 y hy]
        have : xs.count y = 0 := List.count_eq_zero.mpr hy
        rw [this]
        simp
    have hstep : qmStep b p y =
        (if xs.count y < b.count y then p.1 + 1 else p.1,
         aset p.2 y ((b.count y : Int) - xs.count y - 1)) := by
      simp only [qmStep, hnumb]
      congr 1
      have hiff : (0 < (b.count y : Int) - xs.count y) ↔ xs.count y < b.count y := by
        omega
      by_cases hlt : xs.count y < b.count y
      · rw [if_pos (hiff.mpr hlt), if_pos hlt]
      · rw [if_neg (fun hc => hlt (hiff.mp hc)), if_neg hlt]
    rw [hstep]
    have hcnt : ∀ c, (xs ++ [y]).count c = xs.count c + (if c = y then 1 else 0) := by
      intro c
      by_cases hc : c = y
      · subst hc
        simp [List.count_append]
      · simp [List.count_append, List.count_singleton, hc]
    have h1' : ∀ c, c ∈ xs ++ [y] →
        aget (aset p.2 y ((b.count y : Int) - xs.count y - 1)) c =
          some ((b.count c : Int) - (xs ++ [y]).count c) := by
      intro c hc
      by_cases hcy : c = y
      · subst hcy
        rw [aget_aset_self]
        rw [hcnt c]
        simp only [if_pos rfl]
        congr 1
        push_cast
        ring
      · rw [aget_aset_ne _ _ _ _ (fun he => hcy he.symm)]
        have hc' : c ∈ xs := by
          rcases List.mem_append.mp hc with h | h
          · exact h
          · simp at h
            exact absurd h hcy
        rw [h1 c hc', hcnt c]
        simp [hcy]
    have h2' : ∀ c, c ∉ xs ++ [y] →
        aget (aset p.2 y ((b.count y : Int) - xs.count y - 1)) c = none := by
      intro c hc
      simp only [List.mem_append, List.mem_singleton, not_or] at hc
      rw [aget_aset_ne _ _ _ _ (fun he => hc.2 he.symm)]
      exact h2 c hc.1
    have hmin : ∀ k m : Nat, min (k + 1) m = min k m + (if k < m then 1 else 0) := by
      intro k m
      by_cases h : k < m
      · rw [if_pos h]
        omega
      · rw [if_neg h]
        omega
    have h3' : (if xs.count y < b.count y then p.1 + 1 else p.1) =
        Finset.sum (xs ++ [y]).toFinset
          (fun c => min ((xs ++ [y]).count c) (b.count c)) := by
      by_cases hy : y ∈ xs
      · have htf : (xs ++ [y]).toFinset = xs.toFinset := by
          ext c
          simp only [List.mem_toFinset, List.mem_append, List.mem_singleton]
          constructor
          · rintro (h | rfl)
            · exact h
            · exact hy
          · exact Or.inl
        rw [htf]
        have hyf : y ∈ xs.toFinset := List.mem_toFinset.mpr hy
        have hs1 : Finset.sum xs.toFinset
            (fun c => min ((xs ++ [y]).count c) (b.count c)) =
            min ((xs ++ [y]).count y) (b.count y) +
            Finset.sum (xs.toFinset.erase y)
              (fun c => min ((xs ++ [y]).count c) (b.count c)) :=
          (Finset.add_sum_erase _ _ hyf).symm
        have hs2 : Finset.sum xs.toFinset
            (fun c => min (xs.count c) (b.count c)) =
            min (xs.count y) (b.count y) +
            Finset.sum (xs.toFinset.erase y)
              (fun c => min (xs.count c) (b.count c)) :=
          (Finset.add_sum_erase _ _ hyf).symm
        have hs3 : Finset.sum (xs.toFinset.erase y)
            (fun c => min ((xs ++ [y]).count c) (b.count c)) =
            Finset.sum (xs.toFinset.erase y)
              (fun c => min (xs.count c) (b.count c)) := by
          apply Finset.sum_congr rfl
          intro c hc
          have hcy : c ≠ y := Finset.ne_of_mem_erase hc
          rw [hcnt c, if_neg hcy]
          simp
        rw [hs1, hs3, h3, hs2, hcnt y, if_pos rfl, hmin (xs.count y) (b.count y)]
        by_cases h : xs.count y < b.count y
        · rw [if_pos h, if_pos h]
          omega
        · rw [if_neg h, if_neg h]
          omega
      · have hyf : y ∉ xs.toFinset := fun hc => hy (List.mem_toFinset.mp hc)
        have htf : (xs ++ [y]).toFinset = xs.toFinset ∪ ({y} : Finset Char) := by
          ext c
          simp [List.mem_append]
        rw [htf]
        have hdis : Disjoint xs.toFinset ({y} : Finset Char) :=
          Finset.disjoint_singleton_right.mpr hyf
        rw [Finset.sum_union hdis]
        have hs3 : Finset.sum xs.toFinset
            (fun c => min ((xs ++ [y]).count c) (b.count c)) =
            Finset.sum xs.toFinset (fun c => min (xs.count c) (b.count c)) := by
          apply Finset.sum_congr rfl
          intro c hc
          have hcy : c ≠ y := fun he => hyf (he ▸ hc)
          rw [hcnt c, if_neg hcy]
          simp
        rw [hs3, Finset.sum_singleton, hcnt y, if_pos rfl, h3]
        have hx0 : xs.count y = 0 := List.count_eq_zero.mpr hy
        simp only [hx0]
        by_cases h : 0 < b.count y
        · rw [if_pos h]
          have hm : min (0 + 1) (b.count y) = 1 := by omega
          rw [hm]
        · rw [if_neg h]
          have hm : min (0 + 1) (b.count y) = 0 := by omega
          rw [hm]
          omega
    have := ih (xs ++ [y])
      (if List.count y xs < List.count y b then p.1 + 1 else p.1,
        aset p.2 y ((b.count y : Int) - xs.count y - 1)) h1' h2' h3'
    rw [List.append_assoc] at this
    simpa using this

theorem list_sum_count (l : List Char) :
    Finset.sum l.toFinset (fun c => l.count c) = l.length := by
  have h := Multiset.toFinset_sum_count_eq (l : Multiset Char)
  simp only [List.toFinset_coe, Multiset.coe_count, Multiset.coe_card] at h
  exact h

theorem quickMatches_eq (a b : List Char) :
    quickMatches a b =
      Finset.sum a.toFinset (fun c => min (a.count c) (b.count c)) := by
  rw [quickMatches_eq_fold]
  have := qm_fold b a [] (0, []) (by simp) (fun c _ => aget_nil c) (by simp)
  simpa using this

theorem sumMin_le_left (a b : List Char) :
    Finset.sum a.toFinset (fun c => min (a.count c) (b.count c)) ≤ a.length := by
  calc Finset.sum a.toFinset (fun c => min (a.count c) (b.count c))
      ≤ Finset.sum a.toFinset (fun c => a.count c) :=
        Finset.sum_le_sum (fun c _ => min_le_left _ _)
    _ = a.length := list_sum_count a

theorem sumMin_le_right (a b : List Char) :
    Finset.sum a.toFinset (fun c => min (a.count c) (b.count c)) ≤ b.length := by
  have h1 : Finset.sum a.toFinset (fun c => min (a.count c) (b.count c)) ≤
      Finset.sum (a.toFinset ∪ b.toFinset) (fun c => min (a.count c) (b.count c)) :=
    Finset.sum_le_sum_of_subset Finset.subset_union_left
  have h2 : Finset.sum (a.toFinset ∪ b.toFinset)
      (fun c => min (a.count c) (b.count c)) ≤
      Finset.sum (a.toFinset ∪ b.toFinset) (fun c => b.count c) :=
    Finset.sum_le_sum (fun c _ => min_le_right _ _)
  have h3 : Finset.sum (a.toFinset ∪ b.toFinset) (fun c => b.count c) =
      Finset.sum b.toFinset (fun c => b.count c) := by
    symm
    apply Finset.sum_subset Finset.subset_union_right
    intro x _ hnx
    exact List.count_eq_zero.mpr (fun hc => hnx (List.mem_toFinset.mpr hc))
  calc Finset.sum a.toFinset (fun c => min (a.count c) (b.count c))
      ≤ Finset.sum (a.toFinset ∪ b.toFinset) (fun c => b.count c) := h1.trans h2
    _ = Finset.sum b.toFinset (fun c => b.count c) := h3
    _ = b.length := list_sum_count b

theorem sublist_length_le_sumMin (s a b : List Char)
    (ha : s.Sublist a) (hb : s.Sublist b) :
    s.length ≤ Finset.sum a.toFinset (fun c => min (a.count c) (b.count c)) := by
  calc s.length = Finset.sum s.toFinset (fun c => s.count c) :=
        (list_sum_count s).symm
    _ ≤ Finset.sum s.toFinset (fun c => min (a.count c) (b.count c)) :=
        Finset.sum_le_sum (fun c _ => le_min (ha.count_le c) (hb.count_le c))
    _ ≤ Finset.sum a.toFinset (fun c => min (a.count c) (b.count c)) := by
        apply Finset.sum_le_sum_of_subset
        intro x hx
        rw [List.mem_toFinset] at hx ⊢
        exact ha.subset hx

theorem blocksTotal_le_quickMatches (a b : List Char) :
    blocksTotal a b ≤ quickMatches a b := by
  obtain ⟨s, hsa, hsb, hl⟩ := blocksTotalF_sublist (a.length + b.length + 1) a b
  rw [quickMatches_eq, blocksTotal, ← hl]
  exact sublist_length_le_sumMin s a b hsa hsb

theorem quickMatches_le_min (a b : List Char) :
    quickMatches a b ≤ min a.length b.length := by
  rw [quickMatches_eq]
  exact le_min (sumMin_le_left a b) (sumMin_le_right a b)

theorem ratio_chain (a b : List Char) :
    pyRatio a b ≤ quick_ratio a b ∧ quick_ratio a b ≤ real_quick_ratio a b := by
  by_cases h : a.length + b.length = 0
  · constructor <;> simp [pyRatio, quick_ratio, real_quick_ratio, h]
  · have hT : (0 : ℚ) < (a.length : ℚ) + (b.length : ℚ) := by
      have h0 : 0 < a.length + b.length := Nat.pos_of_ne_zero h
      exact_mod_cast h0
    rw [pyRatio, quick_ratio, real_quick_ratio, if_neg h, if_neg h, if_neg h]
    constructor
    · refine (div_le_div_iff_of_pos_right hT).mpr ?_
      have := blocksTotal_le_quickMatches a b
      exact_mod_cast Nat.mul_le_mul_left 2 this
    · refine (div_le_div_iff_of_pos_right hT).mpr ?_
      have := quickMatches_le_min a b
      exact_mod_cast Nat.mul_le_mul_left 2 this

theorem pairLt_true_le (p q : ℚ × Option String) (h : pairLt p q = true) :
    p.1 ≤ q.1 := by
  rw [pairLt] at h
  by_cases he : p.1 = q.1
  · exact le_of_eq he
  · rw [if_neg he] at h
    exact le_of_lt (by simpa using h)

theorem pairLt_false_le (p q : ℚ × Option String) (h : pairLt p q = false) :
    q.1 ≤ p.1 := by
  rw [pairLt] at h
  by_cases he : p.1 = q.1
  · exact le_of_eq he.symm
  · rw [if_neg he] at h
    simp only [decide_eq_false_iff_not] at h
    exact le_of_not_lt h

theorem pymax_fold_mem (S : List (ℚ × Option String)) :
    ∀ (l : List (ℚ × Option String)) (m0 : ℚ × Option String),
      m0 ∈ S → (∀ z ∈ l, z ∈ S) →
      l.foldl (fun m y => if pairLt m y then y else m) m0 ∈ S := by
  intro l
  induction l with
  | nil => intro m0 h0 _; exact h0
  | cons y l ih =>
    intro m0 h0 hl
    rw [List.foldl_cons]
    by_cases hp : pairLt m0 y = true
    · rw [if_pos hp]
      exact ih y (hl y (by simp)) (fun z hz => hl z (by simp [hz]))
    · rw [if_neg hp]
      exact ih m0 h0 (fun z hz => hl z (by simp [hz]))

theorem pymaxQ_mem (x : ℚ × Option String) (xs : List (ℚ × Option String)) :
    pymaxQ (x :: xs) ∈ x :: xs := by
  rw [pymaxQ]
  exact pymax_fold_mem (x :: xs) xs x (by simp) (fun z hz => by simp [hz])

theorem pymax_fold_ge :
    ∀ (l : List (ℚ × Option String)) (m0 : ℚ × Option String),
      m0.1 ≤ (l.foldl (fun m y => if pairLt m y then y else m) m0).1 ∧
      ∀ z ∈ l, z.1 ≤ (l.foldl (fun m y => if pairLt m y then y else m) m0).1 := by
  intro l
  induction l with
  | nil => intro m0; exact ⟨le_refl _, by simp⟩
  | cons y l ih =>
    intro m0
    rw [List.foldl_cons]
    by_cases hp : pairLt m0 y = true
    · rw [if_pos hp]
      obtain ⟨h1, h2⟩ := ih y
      refine ⟨(pairLt_true_le m0 y hp).trans h1, ?_⟩
      intro z hz
      rcases List.mem_cons.mp hz with rfl | hz
      · exact h1
      · exact h2 z hz
    · rw [if_neg hp]
      obtain ⟨h1, h2⟩ := ih m0
      refine ⟨h1, ?_⟩
      intro z hz
      rcases List.mem_cons.mp hz with rfl | hz
      · exact (pairLt_false_le m0 z (Bool.eq_false_iff.mpr hp)).trans h1
      · exact h2 z hz

theorem pymaxQ_ge (x : ℚ × Option String) (xs : List (ℚ × Option String)) :
    ∀ z ∈ x :: xs, z.1 ≤ (pymaxQ (x :: xs)).1 := by
  intro z hz
  rw [pymaxQ]
  obtain ⟨h1, h2⟩ := pymax_fold_ge xs x
  rcases List.mem_cons.mp hz with rfl | hz
  · exact h1
  · exact h2 z hz

theorem foldl_keeps {β : Type}
    (f : List (ℚ × Option String) → β → List (ℚ × Option String))
    (hf : ∀ r s, ∀ z ∈ r, z ∈ f r s) :
    ∀ (l : List β) (r0 : List (ℚ × Option String)), ∀ z ∈ r0, z ∈ l.foldl f r0 := by
  intro l
  induction l with
  | nil => intro r0 z hz; exact hz
  | cons s l ih =>
    intro r0 z hz
    rw [List.foldl_cons]
    exact ih (f r0 s) z (hf r0 s z hz)

theorem gcmInner_keeps (cutoff : ℚ) (w : String) :
    ∀ (r : List (ℚ × Option String)) (p : String × String),
      ∀ z ∈ r, z ∈ gcmInner cutoff w r p := by
  intro r p z hz
  rw [gcmInner]
  dsimp only
  split_ifs with h1 h2
  · simp [hz]
  · exact hz
  · exact hz

theorem gcmInner_mem (cutoff : ℚ) (w : String) :
    ∀ (qs : List (String × String)) (r0 : List (ℚ × Option String))
      (z : ℚ × Option String),
      z ∈ qs.foldl (gcmInner cutoff w) r0 →
      z ∈ r0 ∨ ∃ p ∈ qs, cutoff ≤ pyRatio p.1.data w.data ∧
        z = (pyRatio p.1.data w.data, some p.2) := by
  intro qs
  induction qs with
  | nil => intro r0 z hz; exact Or.inl hz
  | cons q qs ih =>
    intro r0 z hz
    rw [List.foldl_cons] at hz
    rcases ih (gcmInner cutoff w r0 q) z hz with hz1 | ⟨p, hp, hcp, he⟩
    · rw [gcmInner] at hz1
      dsimp only at hz1
      by_cases h1 : cutoff ≤ real_quick_ratio q.1.data w.data ∧
          cutoff ≤ quick_ratio q.1.data w.data
      · rw [if_pos h1] at hz1
        by_cases h2 : cutoff ≤ pyRatio q.1.data w.data
        · rw [if_pos h2] at hz1
          rcases List.mem_append.mp hz1 with hz2 | hz2
          · exact Or.inl hz2
          · simp only [List.mem_singleton] at hz2
            exact Or.inr ⟨q, by simp, h2, hz2⟩
        · rw [if_neg h2] at hz1
          exact Or.inl hz1
      · rw [if_neg h1] at hz1
        exact Or.inl hz1
    · exact Or.inr ⟨p, by simp [hp], hcp, he⟩

theorem gcm_fold_mem (cutoff : ℚ) (poss : List (String × String)) :
    ∀ (ws : List String) (r0 : List (ℚ × Option String)) (z : ℚ × Option String),
      z ∈ ws.foldl (fun res w => poss.foldl (gcmInner cutoff w) res) r0 →
      z ∈ r0 ∨ ∃ w ∈ ws, ∃ p ∈ poss, cutoff ≤ pyRatio p.1.data w.data ∧
        z = (pyRatio p.1.data w.data, some p.2) := by
  intro ws
  induction ws with
  | nil => intro r0 z hz; exact Or.inl hz
  | cons w ws ih =>
    intro r0 z hz
    rw [List.foldl_cons] at hz
    rcases ih _ z hz with hz1 | ⟨w1, hw1, p, hp, hcp, he⟩
    · rcases gcmInner_mem cutoff w poss r0 z hz1 with h | ⟨p, hp, hcp, he⟩
      · exact Or.inl h
      · exact Or.inr ⟨w, by simp, p, hp, hcp, he⟩
    · exact Or.inr ⟨w1, by simp [hw1], p, hp, hcp, he⟩

theorem gcmInner_hit (cutoff : ℚ) (w : String) :
    ∀ (qs : List (String × String)) (r0 : List (ℚ × Option String))
      (p : String × String),
      p ∈ qs → cutoff ≤ pyRatio p.1.data w.data →
      (pyRatio p.1.data w.data, some p.2) ∈ qs.foldl (gcmInner cutoff w) r0 := by
  intro qs
  induction qs with
  | nil =>
    intro r0 p hp
    simp at hp
  | cons q qs ih =>
    intro r0 p hp hc
    rw [List.foldl_cons]
    rcases List.mem_cons.mp hp with rfl | hp
    · apply foldl_keeps (gcmInner cutoff w) (gcmInner_keeps cutoff w)
      rw [gcmInner]
      dsimp only
      have hq : cutoff ≤ real_quick_ratio p.1.data w.data ∧
          cutoff ≤ quick_ratio p.1.data w.data := by
        obtain ⟨c1, c2⟩ := ratio_chain p.1.data w.data
        exact ⟨hc.trans (c1.trans c2), hc.trans c1⟩
      rw [if_pos hq, if_pos hc]
      simp
    · exact ih (gcmInner cutoff w r0 q) p hp hc

theorem gcm_fold_hit (cutoff : ℚ) (poss : List (String × String)) :
    ∀ (ws : List String) (r0 : List (ℚ × Option String)) (w : String)
      (p : String × String),
      w ∈ ws → p ∈ poss → cutoff ≤ pyRatio p.1.data w.data →
      (pyRatio p.1.data w.data, some p.2) ∈
        ws.foldl (fun res w1 => poss.foldl (gcmInner cutoff w1) res) r0 := by
  intro ws
  induction ws with
  | nil =>
    intro r0 w p hw
    simp at hw
  | cons w0 ws ih =>
    intro r0 w p hw hp hc
    rw [List.foldl_cons]
    rcases List.mem_cons.mp hw with rfl | hw
    · exact foldl_keeps _
        (fun r s z hz => foldl_keeps (gcmInner cutoff s) (gcmInner_keeps cutoff s) poss r z hz)
        ws _ _ (gcmInner_hit cutoff w poss r0 p hp hc)
    · exact ih _ w p hw hp hc

theorem gcm_seed (cutoff : ℚ) (poss : List (String × String)) (ws : List String) :
    ((-1 : ℚ), (none : Option String)) ∈
      ws.foldl (fun res w => poss.foldl (gcmInner cutoff w) res)
        [((-1 : ℚ), (none : Option String))] :=
  foldl_keeps _
    (fun r s z hz => foldl_keeps (gcmInner cutoff s) (gcmInner_keeps cutoff s) poss r z hz)
    ws _ _ (by simp)

theorem gcm_none_iff (words : List String) (poss : List (String × String))
    (cutoff : ℚ) (hc : -1 < cutoff) :
    (get_close_matches words poss cutoff = none ↔
      ∀ w ∈ words, ∀ p ∈ poss, pyRatio p.1.data w.data < cutoff) := by
  rw [get_close_matches_eq]
  have hseed := gcm_seed cutoff poss words
  obtain ⟨x, xs, hxxs⟩ : ∃ x xs,
      words.foldl (fun res w => poss.foldl (gcmInner cutoff w) res)
        [((-1 : ℚ), (none : Option String))] = x :: xs := by
    cases hL : words.foldl (fun res w => poss.foldl (gcmInner cutoff w) res)
        [((-1 : ℚ), (none : Option String))] with
    | nil => rw [hL] at hseed; simp at hseed
    | cons x xs => exact ⟨x, xs, rfl⟩
  rw [hxxs]
  have hmx : pymaxQ (x :: xs) ∈ x :: xs := pymaxQ_mem x xs
  constructor
  · intro hnone w hw p hp
    by_contra hge
    push_neg at hge
    have hmem := gcm_fold_hit cutoff poss words
      [((-1 : ℚ), (none : Option String))] w p hw hp hge
    rw [hxxs] at hmem
    have hge2 := pymaxQ_ge x xs _ hmem
    rcases gcm_fold_mem cutoff poss words _ (pymaxQ (x :: xs))
        (by rw [hxxs]; exact hmx) with hx | ⟨w1, hw1, q, hq, hcq, heq⟩
    · simp only [List.mem_singleton] at hx
      rw [hx] at hge2
      simp only at hge2
      linarith
    · rw [heq] at hnone
      simp at hnone
  · intro hlt
    have hall : ∀ z ∈ x :: xs, z = ((-1 : ℚ), (none : Option String)) := by
      intro z hz
      rcases gcm_fold_mem cutoff poss words _ z
          (by rw [hxxs]; exact hz) with h | ⟨w1, hw1, q, hq, hcq, heq⟩
      · simpa using h
      · exact absurd hcq (not_le.mpr (hlt w1 hw1 q hq))
    rw [hall _ hmx]

theorem gcm_some (words : List String) (poss : List (String × String))
    (cutoff : ℚ) (y : String)
    (hy : get_close_matches words poss cutoff = some y) :
    ∃ w ∈ words, ∃ p ∈ poss, p.2 = y ∧ cutoff ≤ pyRatio p.1.data w.data ∧
      ∀ w1 ∈ words, ∀ q ∈ poss, cutoff ≤ pyRatio q.1.data w1.data →
        pyRatio q.1.data w1.data ≤ pyRatio p.1.data w.data := by
  rw [get_close_matches_eq] at hy
  have hseed := gcm_seed cutoff poss words
  obtain ⟨x, xs, hxxs⟩ : ∃ x xs,
      words.foldl (fun res w => poss.foldl (gcmInner cutoff w) res)
        [((-1 : ℚ), (none : Option String))] = x :: xs := by
    cases hL : words.foldl (fun res w => poss.foldl (gcmInner cutoff w) res)
        [((-1 : ℚ), (none : Option String))] with
    | nil => rw [hL] at hseed; simp at hseed
    | cons x xs => exact ⟨x, xs, rfl⟩
  rw [hxxs] at hy
  have hmx : pymaxQ (x :: xs) ∈ x :: xs := pymaxQ_mem x xs
  rcases gcm_fold_mem cutoff poss words _ (pymaxQ (x :: xs))
      (by rw [hxxs]; exact hmx) with hx | ⟨w, hw, p, hp, hcp, heq⟩
  · simp only [List.mem_singleton] at hx
    rw [hx] at hy
    simp at hy
  · refine ⟨w, hw, p, hp, ?_, hcp, ?_⟩
    · rw [heq] at hy
      simpa using hy
    · intro w1 hw1 q hq hcq
      have hmem := gcm_fold_hit cutoff poss words
        [((-1 : ℚ), (none : Option String))] w1 q hw1 hq hcq
      rw [hxxs] at hmem
      have := pymaxQ_ge x xs _ hmem
      rw [heq] at this
      simpa using this

theorem snScan (t : List String) :
    ∀ (ps : List (String × Station))
      (acc : List (String × String) × Option String × Bool),
      (∀ p ∈ ps, snHit t p = false) →
      ps.foldl (snStep t) acc =
        (acc.1 ++ (ps.filter (fun p => p.2.coord.isSome)).map
          (fun p => (p.2.name, p.1)), acc.2.1, acc.2.2) := by
  intro ps
  induction ps with
  | nil =>
    intro acc hh
    simp
  | cons p ps ih =>
    intro acc hh
    have hp : snHit t p = false := hh p (by simp)
    rw [List.foldl_cons]
    have hstep : snStep t acc p =
        ((if p.2.coord.isSome then acc.1 ++ [(p.2.name, p.1)] else acc.1),
          acc.2.1, acc.2.2) := by
      rw [snStep]
      rw [if_neg (by simp [hp])]
    rw [hstep, ih _ (fun q hq => hh q (by simp [hq]))]
    by_cases hcoord : p.2.coord.isSome
    · rw [if_pos hcoord]
      simp only [List.filter_cons, hcoord]
      simp [List.append_assoc]
    · rw [if_neg hcoord]
      simp only [List.filter_cons]
      rw [if_neg (by simpa using hcoord)]

/-- **C5.**  (amended)  The pre-check chain holds (`ratio ≤ quick_ratio ≤
real_quick_ratio`), so the cheap rejects never drop a qualifying candidate;
when the exact phase misses, `station_name_to_id` falls back to
`get_close_matches` over the pool holding exactly the coordinate-bearing
stations (stations without coordinates are excluded); and `get_close_matches`
returns `none` exactly when no (query form, pool name) pair reaches the
cutoff, while a `some` result is the id of a pair whose ratio is maximal
among all qualifying pairs. -/
theorem C5_fuzzy_pool_excludes_coordless (cc : CC) (data : MData) (sta0 : String)
    (words : List String) (poss : List (String × String)) (cutoff : ℚ) :
    (∀ a b : List Char, pyRatio a b ≤ quick_ratio a b ∧
        quick_ratio a b ≤ real_quick_ratio a b) ∧
    ((∀ p ∈ data.stations, snHit (snTry cc sta0) p = false) →
      station_name_to_id cc data sta0 true =
        get_close_matches (snTry cc sta0)
          ((data.stations.filter (fun p => p.2.coord.isSome)).map
            (fun p => (p.2.name, p.1))) (1 / 5)) ∧
    (-1 < cutoff →
      ((get_close_matches words poss cutoff = none ↔
          ∀ w ∈ words, ∀ p ∈ poss, pyRatio p.1.data w.data < cutoff) ∧
        ∀ y, get_close_matches words poss cutoff = some y →
          ∃ w ∈ words, ∃ p ∈ poss, p.2 = y ∧ cutoff ≤ pyRatio p.1.data w.data ∧
            ∀ w1 ∈ words, ∀ q ∈ poss, cutoff ≤ pyRatio q.1.data w1.data →
              pyRatio q.1.data w1.data ≤ pyRatio p.1.data w.data)) := by
  refine ⟨ratio_chain, ?_, fun hc => ⟨gcm_none_iff words poss cutoff hc,
    fun y hy => gcm_some words poss cutoff y hy⟩⟩
  intro hno
  rw [station_name_to_id_eq]
  rw [snScan (snTry cc sta0) data.stations ([], none, false) hno]
  simp

/-- **C5 witness.**  For the coordinate-less station data `exData5` the
fuzzy branch is taken over the (empty) coordinate-bearing pool, and an
empty pool yields `none`. -/
theorem C5_fuzzy_pool_excludes_coordless_witness :
    station_name_to_id idCC exData5 "abcdx" true =
      get_close_matches (snTry idCC "abcdx")
        ((exData5.stations.filter (fun p => p.2.coord.isSome)).map
          (fun p => (p.2.name, p.1))) (1 / 5) ∧
    get_close_matches ["q"] [] 0 = none :=
  ⟨(C5_fuzzy_pool_excludes_coordless idCC exData5 "abcdx" [] [] 0).2.1 (by decide),
   ((C5_fuzzy_pool_excludes_coordless idCC exData5 "abcdx" ["q"] [] 0).2.2
      (by decide)).1.mpr (by decide)⟩

set_option maxRecDepth 8000 in
/-- **C5 counterexample.**  The query `"abcdx"` against the single station
`"sx"` named `"abcdef"` (ratio `8/11`, far above the `1/5` cutoff) returns
`none` because the station has no coordinates and so never enters the fuzzy
pool; had it participated, as the claim asserts of every station,
`get_close_matches` would have returned `"sx"`. -/
theorem C5_coordless_station_excluded :
    station_name_to_id idCC exData5 "abcdx" true = none ∧
    (1 / 5 : ℚ) ≤ pyRatio "abcdef".data "abcdx".data ∧
    get_close_matches ["abcdx", "abcdx", "abcdx"] [("abcdef", "sx")] (1 / 5) =
      some "sx" := by
  have hb : blocksTotal "abcdef".data "abcdx".data = 4 := by decide
  have h6 : ("abcdef".data).length = 6 := rfl
  have h5 : ("abcdx".data).length = 5 := rfl
  have hr : pyRatio "abcdef".data "abcdx".data = 8 / 11 := by
    rw [pyRatio]
    simp only [hb, h6, h5]
    norm_num
  have hrge : (1 / 5 : ℚ) ≤ pyRatio "abcdef".data "abcdx".data := by
    rw [hr]
    norm_num
  refine ⟨by decide, hrge, ?_⟩
  have hc : (-1 : ℚ) < 1 / 5 := by norm_num
  have hnone := gcm_none_iff ["abcdx", "abcdx", "abcdx"] [("abcdef", "sx")] (1 / 5) hc
  cases hres : get_close_matches ["abcdx", "abcdx", "abcdx"] [("abcdef", "sx")] (1 / 5) with
  | none =>
    have hlt := hnone.mp hres "abcdx" (by simp) ("abcdef", "sx") (by simp)
    exact absurd hlt (not_lt.mpr hrge)
  | some y =>
    obtain ⟨w, hw, p, hp, hpy, -, -⟩ := gcm_some _ _ _ y hres
    simp only [List.mem_singleton] at hp
    rw [hp] at hpy
    simp only at hpy
    rw [← hpy]

end MTR
